import Mathlib

/-!
The shared reader engine of ipdb-go.

A shallow embedding of `reader.go`: the loader (`newReaderFromBytes`, `initBytes`), the
bit-trie walk (`search`, `readNode`), the record resolver (`resolve`) and the field decoder
(`find0`, `find1`).

Conventions of the embedding.

* A Go `int` is a Lean `Int` and arithmetic is exact: on the paths modelled here every
  sum is formed from child pointers below `2^32`, buffer lengths and metadata integers.
  The one sum that takes a language offset, an integer of the metadata that no check
  bounds, is the sum `off + len(db.meta.Fields)` of `find1`: there it is the 64-bit sum
  `addInt`, which wraps modulo `2^64`.
* A Go `byte` is a `Fin 256`.
* A Go function can end in a run-time panic (slice bounds out of range, index out of
  range).  Every function that can panic returns an `Option`, and `none` is the panic.
* A Go result pair `(value, error)` is a Lean pair whose second component is
  `Option Error`; `none` is the `nil` error.  A result slice that can be `nil` is an
  `Option (List _)`.
* A byte slice is its contents (`data`, the first `len` bytes) together with the bytes of
  the backing array between `len` and `cap` (`spare`).  A slice expression `s[lo:hi]` is
  checked against the capacity, an index expression `s[i]` against the length, as in Go.
* `encoding/json` and `net.ParseIP` belong to the standard library; they are parameters
  (`unmarshal`, `parseIP`).  The table that `initBytes` builds by reflection over the
  record type is the parameter `dm`; for the five record types it is written out
  (`cityRefType` and the others).
* A Go map and a `sync.Map` are association lists with one entry a key (`mapStore`,
  `mapLoad`).  A method that changes its receiver returns the receiver after the call
  next to its result.  The locks are left out: every method is modelled as one step.
* The file system is the parameter `files` (`os.Stat` and `ioutil.ReadFile`).

The handles of city.go, district.go, idc.go, risk.go and base_station.go are embedded as
far as the statements need them: `Reload` of all five, the lookups of `City`,
`BaseStation.FindInfo`, and `NewRisk` with `Risk.FindInfo` (`strconv.Atoi` is the
parameter `atoi`).
-/

namespace Ipdb

set_option synthInstance.maxSize 1024
set_option maxRecDepth 8192

/-- A Go `byte`. -/
abbrev Byte := Fin 256

/-- The error values declared in reader.go, and `jsonError` for an error raised by
`encoding/json`, which is a value of that package and so differs from all of them.
`ErrInvalidIP` and `ErrNotFound` are declared in base_station.go; `osError` is an error of
`os.Stat`; `errorf format err` is `fmt.Errorf(format, err)` with the verb `%v`, and
`errorfText format text` is `fmt.Errorf(format, text)` with the verb `%s`;
`errorsNew msg` is `errors.New(msg)` at a call site. -/
inductive Error where
  | ErrFileSize
  | ErrMetaData
  | ErrReadFull
  | ErrDatabase
  | ErrIPFormat
  | ErrNoSupportLanguage
  | ErrNoSupportIPv4
  | ErrNoSupportIPv6
  | ErrDataNotExists
  | jsonError (msg : String)
  | ErrInvalidIP
  | ErrNotFound
  | osError (msg : String)
  | errorf (format : String) (arg : Error)
  | errorfText (format : String) (arg : String)
  | errorsNew (msg : String)
  deriving DecidableEq, Repr

deriving instance DecidableEq for Except

/-- The constant `IPv4 = 0x01`. -/
def IPv4 : Nat := 0x01

/-- The constant `IPv6 = 0x02`. -/
def IPv6 : Nat := 0x02

/-- The struct `MetaData`.  `Languages` is the Go map, kept as an association list that is
read with `List.lookup`. -/
structure MetaData where
  Build : Int
  IPVersion : Nat
  Languages : List (String × Int)
  NodeCount : Int
  TotalSize : Int
  Fields : List String
  deriving DecidableEq, Repr

/-- The struct `reader`.  `data` and `spare` are the slice `data` (contents and spare
capacity); `cache` is the `sync.Map` from `addr+language` to a decoded field map. -/
structure Reader where
  fileSize : Int
  nodeCount : Int
  v4offset : Int
  meta : MetaData
  data : List Byte
  spare : List Byte
  refType : List (String × String)
  cache : List (String × List (String × List Byte))
  deriving DecidableEq, Repr

/-- The slice expression `s[lo:hi]` over a backing array: it panics unless
`0 <= lo <= hi <= cap`. -/
def sliceExpr {α : Type} (backing : List α) (lo hi : Int) : Option (List α) :=
  if 0 ≤ lo ∧ lo ≤ hi ∧ hi ≤ (backing.length : Int) then
    some ((backing.drop lo.toNat).take (hi - lo).toNat)
  else
    none

/-- The function `binary.BigEndian.Uint32`:
`b[3] | b[2]<<8 | b[1]<<16 | b[0]<<24`, an index panic when `b` is shorter than 4. -/
def Uint32 (b : List Byte) : Option Nat := do
  let b0 ← b[0]?
  let b1 ← b[1]?
  let b2 ← b[2]?
  let b3 ← b[3]?
  some (b3.val ||| (b2.val <<< 8) ||| (b1.val <<< 16) ||| (b0.val <<< 24))

/-- The function `binary.BigEndian.Uint16`: `b[1] | b[0]<<8`. -/
def Uint16 (b : List Byte) : Option Nat := do
  let b0 ← b[0]?
  let b1 ← b[1]?
  some (b1.val ||| (b0.val <<< 8))

/-- The method `readNode`: the child pointer of `node` on branch `index`. -/
def readNode (db : Reader) (node index : Int) : Option Int := do
  let off := node * 8 + index * 4
  let b ← sliceExpr (db.data ++ db.spare) off (off + 4)
  let v ← Uint32 b
  some (v : Int)

/-- The loop of `initBytes` that computes `v4offset`,
`for i := 0; i < 96 && node < db.nodeCount; i++`, with `remaining = 96 - i`. -/
def v4Walk (db : Reader) : Nat → Nat → Int → Option Int
  | 0, _, node => some node
  | remaining + 1, i, node =>
    if node < db.nodeCount then
      (if i ≥ 80 then readNode db node 1 else readNode db node 0).bind
        (v4Walk db remaining (i + 1))
    else
      some node

/-- The function `initBytes`. -/
def initBytes (unmarshal : List Byte → Except String MetaData) (body spare : List Byte)
    (fileSize : Int) (dm : List (String × String)) : Option (Option Reader × Option Error) :=
  (sliceExpr (body ++ spare) 0 4).bind fun hdr =>
  (Uint32 hdr).bind fun len32 =>
  let metaLength : Int := len32
  if fileSize < 4 + metaLength then
    some (none, some Error.ErrFileSize)
  else
    (sliceExpr (body ++ spare) 4 (4 + metaLength)).bind fun metaBytes =>
    match unmarshal metaBytes with
    | Except.error e => some (none, some (Error.jsonError e))
    | Except.ok meta =>
      if meta.Languages.length = 0 ∨ meta.Fields.length = 0 then
        some (none, some Error.ErrMetaData)
      else if fileSize ≠ 4 + metaLength + meta.TotalSize then
        some (none, some Error.ErrFileSize)
      else if 4 + metaLength ≤ (body.length : Int) then
        let db : Reader :=
          { fileSize := fileSize
            nodeCount := meta.NodeCount
            v4offset := 0
            meta := meta
            data := body.drop (4 + metaLength).toNat
            spare := spare
            refType := dm
            cache := [] }
        if db.v4offset = 0 then
          (v4Walk db 96 0 0).bind fun node => some (some { db with v4offset := node }, none)
        else
          some (some db, none)
      else
        none

/-- The function `newReaderFromBytes`. -/
def newReaderFromBytes (unmarshal : List Byte → Except String MetaData) (body spare : List Byte)
    (dm : List (String × String)) : Option (Option Reader × Option Error) :=
  if body.length < 4 then
    some (none, some Error.ErrFileSize)
  else
    initBytes unmarshal body spare body.length dm

/-- The method `IsIPv4Support`. -/
def IsIPv4Support (db : Reader) : Bool :=
  (db.meta.IPVersion &&& IPv4) == IPv4

/-- The method `IsIPv6Support`. -/
def IsIPv6Support (db : Reader) : Bool :=
  (db.meta.IPVersion &&& IPv6) == IPv6

/-- The loop of `search`, `for i := 0; i < bitCount && node < db.nodeCount; i++`, with
`remaining = bitCount - i`.  The branch is `(ip[i>>3] >> (7-(i&7))) & 1`. -/
def searchLoop (db : Reader) (ip : List Byte) : Nat → Nat → Int → Option Int
  | 0, _, node => some node
  | remaining + 1, i, node =>
    if node < db.nodeCount then
      (ip[i >>> 3]?).bind fun b =>
        (readNode db node (((b.val >>> (7 - (i &&& 7))) &&& 1 : Nat) : Int)).bind
          (searchLoop db ip remaining (i + 1))
    else
      some node

/-- The method `search`. -/
def search (db : Reader) (ip : List Byte) (bitCount : Int) : Option (Int × Option Error) :=
  let node : Int := if bitCount = 32 then db.v4offset else 0
  (searchLoop db ip bitCount.toNat 0 node).bind fun node =>
    if node > db.nodeCount then
      some (node, none)
    else
      some (-1, some Error.ErrDataNotExists)

/-- The method `resolve`. -/
def resolve (db : Reader) (node : Int) : Option (Option (List Byte) × Option Error) :=
  let resolved := node - db.nodeCount + db.nodeCount * 8
  if resolved ≥ db.fileSize then
    some (none, some Error.ErrDatabase)
  else
    (sliceExpr (db.data ++ db.spare) resolved (resolved + 2)).bind fun b =>
    (Uint16 b).bind fun size16 =>
    let size : Int := size16
    if resolved + 2 + size > (db.data.length : Int) then
      some (none, some Error.ErrDatabase)
    else
      (sliceExpr (db.data ++ db.spare) (resolved + 2) (resolved + 2 + size)).bind fun bytes =>
        some (some bytes, none)

/-- The helper `isZeros` of package `net`. -/
def isZeros (p : List Byte) : Bool :=
  p.all fun b => b == 0

/-- The constant `v4InV6Prefix` of package `net`: ten zero bytes, then `0xff 0xff`. -/
def v4InV6 : List Byte :=
  List.replicate 10 0 ++ [255, 255]

/-- The method `IP.To4` of package `net`; `none` is the `nil` address. -/
def To4 (ip : List Byte) : Option (List Byte) :=
  if ip.length = 4 then
    some ip
  else if ip.length = 16 ∧ isZeros (ip.take 10) = true ∧ ip[10]? = some 255
      ∧ ip[11]? = some 255 then
    some ((ip.drop 12).take 4)
  else
    none

/-- The method `IP.To16` of package `net`; `none` is the `nil` address. -/
def To16 (ip : List Byte) : Option (List Byte) :=
  if ip.length = 4 then
    some (v4InV6 ++ ip)
  else if ip.length = 16 then
    some ip
  else
    none

/-- The end of `find0` (lines 181 to 185): `if err != nil || node < 0` it returns
`nil, err`, otherwise it resolves the node. -/
def find0Resolve (db : Reader) (r : Int × Option Error) :
    Option (Option (List Byte) × Option Error) :=
  if r.2 ≠ none ∨ r.1 < 0 then
    some (none, r.2)
  else
    resolve db r.1

/-- The method `find0`.  `parseIP` is `net.ParseIP`, the empty list being `nil`. -/
def find0 (parseIP : String → List Byte) (db : Reader) (addr : String) :
    Option (Option (List Byte) × Option Error) :=
  let ipv := parseIP addr
  match To4 ipv with
  | some ip =>
    if ¬ IsIPv4Support db then
      some (none, some Error.ErrNoSupportIPv4)
    else
      (search db ip 32).bind (find0Resolve db)
  | none =>
    match To16 ipv with
    | some ip =>
      if ¬ IsIPv6Support db then
        some (none, some Error.ErrNoSupportIPv6)
      else
        (search db ip 128).bind (find0Resolve db)
    | none => some (none, some Error.ErrIPFormat)

/-- The call `strings.Split(str, "\t")` on the bytes of `str`: the pieces between the tab
bytes, one more piece than there are tabs. -/
def splitTab : List Byte → List (List Byte)
  | [] => [[]]
  | b :: rest =>
    if b = 9 then
      [] :: splitTab rest
    else
      match splitTab rest with
      | [] => [[b]]
      | t :: ts => (b :: t) :: ts

/-- The largest Go `int`, `2^63 - 1`. -/
def maxInt : Int := 9223372036854775807

/-- The sum `a + b` of two Go `int`s, which are 64 bits wide: the exact sum brought into
`[-2^63, 2^63)` modulo `2^64`. -/
def addInt (a b : Int) : Int :=
  (a + b + 9223372036854775808) % 18446744073709551616 - 9223372036854775808

/-- The built-in `len` as a Go `int`: a Go slice holds at most `maxInt` elements. -/
def lenInt {α : Type} (xs : List α) : Int :=
  min (xs.length : Int) maxInt

/-- The method `find1`.  A `nil` body converts to the empty string.  The language offset
`off` is an `int` of the metadata, so `off + len(db.meta.Fields)` is the 64-bit sum: past
`maxInt` it wraps to a negative number, the test against `len(tmp)` is false and the slice
expression panics. -/
def find1 (parseIP : String → List Byte) (db : Reader) (addr language : String) :
    Option (Option (List (List Byte)) × Option Error) :=
  match db.meta.Languages.lookup language with
  | none => some (none, some Error.ErrNoSupportLanguage)
  | some off =>
    (find0 parseIP db addr).bind fun r =>
      match r.2 with
      | some err => some (none, some err)
      | none =>
        let tmp := splitTab (r.1.getD [])
        if addInt off (lenInt db.meta.Fields) > lenInt tmp then
          some (none, some Error.ErrDatabase)
        else
          (sliceExpr tmp off (addInt off (lenInt db.meta.Fields))).bind fun vals =>
            some (some vals, none)

/-- The method `Find` (the lock apart). -/
def Find (parseIP : String → List Byte) (db : Reader) (addr language : String) :
    Option (Option (List (List Byte)) × Option Error) :=
  find1 parseIP db addr language

/-- A metadata block for the examples: one language, two fields, two trie nodes. -/
def sampleMeta : MetaData :=
  { Build := 1700000000
    IPVersion := 3
    Languages := [("CN", 0)]
    NodeCount := 2
    TotalSize := 22
    Fields := ["country_name", "city_name"] }

/-- A stand-in for `json.Unmarshal` in the examples: it accepts the two bytes `123 125`
with `sampleMeta` and rejects everything else. -/
def sampleUnmarshal (b : List Byte) : Except String MetaData :=
  if b = [123, 125] then Except.ok sampleMeta else Except.error "unexpected end of JSON input"

/-- The region of the example file: node 0 (children 0 and 1), node 1 (children 3 and 1),
one unused byte, and at offset 17 the record of length 3 with payload `x<tab>y`. -/
def sampleRegion : List Byte :=
  [0, 0, 0, 0, 0, 0, 0, 1,
   0, 0, 0, 3, 0, 0, 0, 1,
   0,
   0, 3, 120, 9, 121]

/-- The example file: the length prefix 2, the metadata bytes, the region. -/
def sampleFile : List Byte :=
  [0, 0, 0, 2, 123, 125] ++ sampleRegion

/-- The reader that loading `sampleFile` gives. -/
def sampleReader : Reader :=
  { fileSize := 28
    nodeCount := 2
    v4offset := 1
    meta := sampleMeta
    data := sampleRegion
    spare := []
    refType := []
    cache := [] }

/-- A stand-in for `net.ParseIP` in the examples: it knows three addresses. -/
def sampleParseIP (addr : String) : List Byte :=
  if addr = "1.1.1.1" then v4InV6 ++ [1, 1, 1, 1]
  else if addr = "255.255.255.255" then v4InV6 ++ [255, 255, 255, 255]
  else if addr = "::" then List.replicate 16 0
  else []

/-! ## Further example files -/

/-- The example region with the record pointer of node 1 changed from 3 to 8: the record
offset of 8 is `8 - 2 + 16 = 22`, the length of the region. -/
def corruptRegion : List Byte :=
  [0, 0, 0, 0, 0, 0, 0, 1,
   0, 0, 0, 8, 0, 0, 0, 1,
   0,
   0, 3, 120, 9, 121]

/-- The example file with that region. -/
def corruptFile : List Byte :=
  [0, 0, 0, 2, 123, 125] ++ corruptRegion

/-- The reader that loading `corruptFile` gives. -/
def corruptReader : Reader :=
  { sampleReader with data := corruptRegion }

/-- A metadata block that declares one trie node and a region of no bytes. -/
def truncMeta : MetaData :=
  { Build := 1700000000
    IPVersion := 1
    Languages := [("CN", 0)]
    NodeCount := 1
    TotalSize := 0
    Fields := ["country_name"] }

/-- A stand-in for `json.Unmarshal` that reads `truncMeta` from the bytes `123 125`. -/
def truncUnmarshal (b : List Byte) : Except String MetaData :=
  if b = [123, 125] then Except.ok truncMeta else Except.error "unexpected end of JSON input"

/-- A file that ends with its metadata block: the length prefix 2 and the two bytes. -/
def truncFile : List Byte :=
  [0, 0, 0, 2, 123, 125]

/-- A stand-in for `json.Unmarshal` that reads, from the bytes `123 125`, a descriptor
with no language. -/
def noLanguageUnmarshal (b : List Byte) : Except String MetaData :=
  if b = [123, 125] then Except.ok { sampleMeta with Languages := [] }
  else Except.error "unexpected end of JSON input"

/-! ## The reference walk of the specification (section 4.2) -/

/-- Reference, in the words of the specification: bit `i` of the address, most significant
first, is bit `7 - (i mod 8)` of byte `i div 8`. -/
def specBit (ip : List Byte) (i : Nat) : Nat :=
  ((ip.getD (i / 8) 0).val / 2 ^ (7 - i % 8)) % 2

/-- Reference: the address bits, most significant first. -/
def specBits (ip : List Byte) (bitCount : Nat) : List Nat :=
  (List.range bitCount).map (specBit ip)

/-- Reference: the big-endian unsigned 32-bit value stored at byte offset `off`. -/
def specBE32 (region : List Byte) (off : Nat) : Nat :=
  (region.getD off 0).val * 2 ^ 24 + (region.getD (off + 1) 0).val * 2 ^ 16
    + (region.getD (off + 2) 0).val * 2 ^ 8 + (region.getD (off + 3) 0).val

/-- Reference walk: while the current node is below `nodeCount` and bits remain, the node
is replaced by the value stored at byte offset `node*8 + bit*4`. -/
def specWalk (region : List Byte) (nodeCount : Int) : List Nat → Int → Int
  | [], node => node
  | bit :: bits, node =>
    if node < nodeCount then
      specWalk region nodeCount bits (specBE32 region (node.toNat * 8 + bit * 4))
    else
      node

/-- Reference: the walk starts at `v4_offset` when `bit_count` is 32, at node 0 otherwise. -/
def specStart (v4offset : Int) (bitCount : Int) : Int :=
  if bitCount = 32 then v4offset else 0

/-- Reference: the big-endian unsigned 16-bit value stored at byte offset `off`. -/
def specBE16 (region : List Byte) (off : Nat) : Nat :=
  (region.getD off 0).val * 2 ^ 8 + (region.getD (off + 1) 0).val

/-! ## The map form and the lookup cache of the reader -/

/-- A Go `map[string]string` of decoded fields, from field name to value.  A map is kept as
an association list with one entry a key. -/
abbrev FieldMap := List (String × List Byte)

/-- The assignment `m[k] = v` on a Go map and `Store(k, v)` on a `sync.Map`: the entry
of `k`, if there is one, is replaced. -/
def mapStore {β : Type} (m : List (String × β)) (k : String) (v : β) : List (String × β) :=
  (k, v) :: m.filter fun kv => kv.1 != k

/-- The read `v, ok := m[k]` on a Go map and `Load(k)` on a `sync.Map`. -/
def mapLoad {β : Type} (m : List (String × β)) (k : String) : Option β :=
  m.lookup k

/-- The loop `for k, v := range data { info[db.meta.Fields[k]] = v }` of `FindMap`, from
index `k` on; `Fields[k]` panics when `k` is out of range. -/
def fillInfo (fields : List String) : List (List Byte) → Nat → FieldMap → Option FieldMap
  | [], _, info => some info
  | v :: rest, k, info =>
    (fields[k]?).bind fun name => fillInfo fields rest (k + 1) (mapStore info name v)

/-- The method `reader.FindMap` (the lock apart).  The result pair comes with the reader
after the call, whose `cache` may have a new entry. -/
def FindMap (parseIP : String → List Byte) (db : Reader) (addr language : String) :
    Option ((Option FieldMap × Option Error) × Reader) :=
  match mapLoad db.cache (addr ++ language) with
  | some val => some ((some val, none), db)
  | none =>
    (find1 parseIP db addr language).bind fun r =>
      match r.2 with
      | some err => some ((none, some err), db)
      | none =>
        (fillInfo db.meta.Fields (r.1.getD []) 0 []).bind fun info =>
          some ((some info, none),
            { db with cache := mapStore db.cache (addr ++ language) info })

/-- The uncached path the cache is compared with: `find1`, then the pairing of the values
with the field names. -/
def uncachedMap (parseIP : String → List Byte) (db : Reader) (addr language : String) :
    Option (Option FieldMap × Option Error) :=
  (find1 parseIP db addr language).bind fun r =>
    match r.2 with
    | some err => some (none, some err)
    | none => (fillInfo db.meta.Fields (r.1.getD []) 0 []).bind fun info => some (some info, none)

/-- The reader cut down to its index region: the first `nodeCount*8` bytes of the region
and no spare capacity.  On it every access outside the index region is a panic. -/
def indexOnly (db : Reader) : Reader :=
  { db with data := db.data.take (db.nodeCount * 8).toNat, spare := [] }

/-! ## Files and the loader by name -/

/-- The file system as the loader sees it: `stat` is `os.Stat` followed by `Size()` (the
size, or the text of the error), `readFile` is `ioutil.ReadFile` (the contents with the
spare capacity of the slice, or `none` for an error). -/
structure Files where
  stat : String → Except String Int
  readFile : String → Option (List Byte × List Byte)

/-- The function `newReader`. -/
def newReader (files : Files) (unmarshal : List Byte → Except String MetaData) (name : String)
    (dm : List (String × String)) : Option (Option Reader × Option Error) :=
  match files.stat name with
  | Except.error msg => some (none, some (Error.osError msg))
  | Except.ok fileSize =>
    if fileSize < 4 then
      some (none, some Error.ErrFileSize)
    else
      match files.readFile name with
      | none => some (none, some Error.ErrReadFull)
      | some (body, spare) => initBytes unmarshal body spare fileSize dm

/-- The method `Build`: the build time, in seconds since the epoch. -/
def Build (db : Reader) : Int :=
  db.meta.Build

/-- The function `validateIP` of city.go; `none` is the `nil` error. -/
def validateIP (parseIP : String → List Byte) (addr : String) : Option Error :=
  if parseIP addr = [] then
    some (Error.errorfText "无效的IP地址格式: %s" addr)
  else
    none

/-! ## The record types and their field tables -/

/-- The struct `DistrictInfo`. -/
structure DistrictInfo where
  CountryName : List Byte := []
  RegionName : List Byte := []
  CityName : List Byte := []
  DistrictName : List Byte := []
  ChinaAdminCode : List Byte := []
  CoveringRadius : List Byte := []
  Latitude : List Byte := []
  Longitude : List Byte := []
  deriving DecidableEq, Repr

/-- The struct `ASNInfo`; the field `Type` is `ASNType` here. -/
structure ASNInfo where
  ASN : Int := 0
  Registry : List Byte := []
  Country : List Byte := []
  Net : List Byte := []
  Org : List Byte := []
  ASNType : List Byte := []
  Domain : List Byte := []
  deriving DecidableEq, Repr

/-- The struct `CityInfo`; the fields `DistrictInfo` and `ASNInfo` are `District` and
`ASNList` here. -/
structure CityInfo where
  CountryName : List Byte := []
  RegionName : List Byte := []
  CityName : List Byte := []
  DistrictName : List Byte := []
  OwnerDomain : List Byte := []
  IspDomain : List Byte := []
  Latitude : List Byte := []
  Longitude : List Byte := []
  Timezone : List Byte := []
  UtcOffset : List Byte := []
  ChinaRegionCode : List Byte := []
  ChinaCityCode : List Byte := []
  ChinaDistrictCode : List Byte := []
  ChinaAdminCode : List Byte := []
  IddCode : List Byte := []
  CountryCode : List Byte := []
  ContinentCode : List Byte := []
  IDC : List Byte := []
  BaseStation : List Byte := []
  CountryCode3 : List Byte := []
  EuropeanUnion : List Byte := []
  CurrencyCode : List Byte := []
  CurrencyName : List Byte := []
  Anycast : List Byte := []
  Line : List Byte := []
  District : DistrictInfo := {}
  Route : List Byte := []
  ASN : List Byte := []
  ASNList : List ASNInfo := []
  AreaCode : List Byte := []
  UsageType : List Byte := []
  deriving DecidableEq, Repr

/-- The struct `IDCInfo`. -/
structure IDCInfo where
  CountryName : List Byte := []
  RegionName : List Byte := []
  CityName : List Byte := []
  OwnerDomain : List Byte := []
  IspDomain : List Byte := []
  IDC : List Byte := []
  deriving DecidableEq, Repr

/-- The struct `RiskInfo`. -/
structure RiskInfo where
  Score : Int := 0
  Behavior : List Byte := []
  CountryCode : List Byte := []
  deriving DecidableEq, Repr

/-- The struct `BaseStationInfo`. -/
structure BaseStationInfo where
  CountryName : List Byte := []
  RegionName : List Byte := []
  CityName : List Byte := []
  OwnerDomain : List Byte := []
  IspDomain : List Byte := []
  BaseStation : List Byte := []
  deriving DecidableEq, Repr

/-- The table that `initBytes` builds by reflection from `&CityInfo{}`: the `json` tag of
each field to the name of the field. -/
def cityRefType : List (String × String) :=
  [("country_name", "CountryName"), ("region_name", "RegionName"), ("city_name", "CityName"),
   ("district_name", "DistrictName"), ("owner_domain", "OwnerDomain"),
   ("isp_domain", "IspDomain"), ("latitude", "Latitude"), ("longitude", "Longitude"),
   ("timezone", "Timezone"), ("utc_offset", "UtcOffset"),
   ("china_region_code", "ChinaRegionCode"), ("china_city_code", "ChinaCityCode"),
   ("china_district_code", "ChinaDistrictCode"), ("china_admin_code", "ChinaAdminCode"),
   ("idd_code", "IddCode"), ("country_code", "CountryCode"),
   ("continent_code", "ContinentCode"), ("idc", "IDC"), ("base_station", "BaseStation"),
   ("country_code3", "CountryCode3"), ("european_union", "EuropeanUnion"),
   ("currency_code", "CurrencyCode"), ("currency_name", "CurrencyName"),
   ("anycast", "Anycast"), ("line", "Line"), ("district_info", "DistrictInfo"),
   ("route", "Route"), ("asn", "ASN"), ("asn_info", "ASNInfo"), ("area_code", "AreaCode"),
   ("usage_type", "UsageType")]

/-- The table built from `&DistrictInfo{}`. -/
def districtRefType : List (String × String) :=
  [("country_name", "CountryName"), ("region_name", "RegionName"), ("city_name", "CityName"),
   ("district_name", "DistrictName"), ("china_admin_code", "ChinaAdminCode"),
   ("covering_radius", "CoveringRadius"), ("latitude", "Latitude"),
   ("longitude", "Longitude")]

/-- The table built from `&IDCInfo{}`. -/
def idcRefType : List (String × String) :=
  [("country_name", "CountryName"), ("region_name", "RegionName"), ("city_name", "CityName"),
   ("owner_domain", "OwnerDomain"), ("isp_domain", "IspDomain"), ("idc", "IDC")]

/-- The table built from `&RiskInfo{}`. -/
def riskRefType : List (String × String) :=
  [("score", "Score"), ("behavior", "Behavior"), ("country_code", "CountryCode")]

/-- The table built from `&BaseStationInfo{}`. -/
def baseStationRefType : List (String × String) :=
  [("country_name", "CountryName"), ("region_name", "RegionName"), ("city_name", "CityName"),
   ("owner_domain", "OwnerDomain"), ("isp_domain", "IspDomain"),
   ("base_station", "BaseStation")]

/-! ## The database handles -/

/-- The struct `City` (the mutex apart): the reader and the cache of typed records. -/
structure City where
  reader : Reader
  cache : List (String × CityInfo)
  deriving DecidableEq, Repr

/-- The struct `District`. -/
structure District where
  reader : Reader
  cache : List (String × DistrictInfo)
  deriving DecidableEq, Repr

/-- The struct `IDC`. -/
structure IDC where
  reader : Reader
  cache : List (String × IDCInfo)
  deriving DecidableEq, Repr

/-- The struct `Risk`. -/
structure Risk where
  reader : Reader
  cache : List (String × RiskInfo)
  deriving DecidableEq, Repr

/-- The struct `BaseStation`. -/
structure BaseStation where
  reader : Reader
  cache : List (String × BaseStationInfo)
  deriving DecidableEq, Repr

/-- The method `City.ClearCache`. -/
def City.ClearCache (db : City) : City :=
  { db with cache := [] }

/-- The method `City.Reload`: the error it returns and the handle after the call. -/
def City.Reload (files : Files) (unmarshal : List Byte → Except String MetaData) (db : City)
    (name : String) : Option (Option Error × City) :=
  match files.stat name with
  | Except.error msg =>
    some (some (Error.errorf "数据库文件不存在: %v" (Error.osError msg)), db)
  | Except.ok _ =>
    (newReader files unmarshal name cityRefType).bind fun r =>
      match r.2 with
      | some err => some (some (Error.errorf "加载数据库失败: %v" err), db)
      | none => r.1.bind fun reader => some (none, City.ClearCache { db with reader := reader })

/-- The method `District.ClearCache`. -/
def District.ClearCache (db : District) : District :=
  { db with cache := [] }

/-- The method `District.Reload`. -/
def District.Reload (files : Files) (unmarshal : List Byte → Except String MetaData)
    (db : District) (name : String) : Option (Option Error × District) :=
  match files.stat name with
  | Except.error msg =>
    some (some (Error.errorf "数据库文件不存在: %v" (Error.osError msg)), db)
  | Except.ok _ =>
    (newReader files unmarshal name districtRefType).bind fun r =>
      match r.2 with
      | some err => some (some (Error.errorf "加载数据库失败: %v" err), db)
      | none =>
        r.1.bind fun reader => some (none, District.ClearCache { db with reader := reader })

/-- The method `IDC.ClearCache`. -/
def IDC.ClearCache (db : IDC) : IDC :=
  { db with cache := [] }

/-- The method `IDC.Reload`. -/
def IDC.Reload (files : Files) (unmarshal : List Byte → Except String MetaData) (db : IDC)
    (name : String) : Option (Option Error × IDC) :=
  match files.stat name with
  | Except.error msg =>
    some (some (Error.errorf "数据库文件不存在: %v" (Error.osError msg)), db)
  | Except.ok _ =>
    (newReader files unmarshal name idcRefType).bind fun r =>
      match r.2 with
      | some err => some (some (Error.errorf "加载数据库失败: %v" err), db)
      | none => r.1.bind fun reader => some (none, IDC.ClearCache { db with reader := reader })

/-- The method `Risk.ClearCache`. -/
def Risk.ClearCache (db : Risk) : Risk :=
  { db with cache := [] }

/-- The method `Risk.Reload`: it does not call `os.Stat` itself. -/
def Risk.Reload (files : Files) (unmarshal : List Byte → Except String MetaData) (db : Risk)
    (name : String) : Option (Option Error × Risk) :=
  (newReader files unmarshal name riskRefType).bind fun r =>
    match r.2 with
    | some err => some (some (Error.errorf "重新加载数据库失败: %v" err), db)
    | none => r.1.bind fun reader => some (none, Risk.ClearCache { db with reader := reader })

/-- The method `BaseStation.Reload`: it returns the errors as they are and assigns the
reader; the field `cache` is not assigned. -/
def BaseStation.Reload (files : Files) (unmarshal : List Byte → Except String MetaData)
    (db : BaseStation) (name : String) : Option (Option Error × BaseStation) :=
  match files.stat name with
  | Except.error msg => some (some (Error.osError msg), db)
  | Except.ok _ =>
    (newReader files unmarshal name baseStationRefType).bind fun r =>
      match r.2 with
      | some err => some (some err, db)
      | none => r.1.bind fun reader => some (none, { db with reader := reader })

/-- The method `BaseStation.FindInfo`: the result pair and the handle after the call.  A
key that the map does not hold reads as the empty string. -/
def BaseStation.FindInfo (parseIP : String → List Byte) (db : BaseStation)
    (addr language : String) : Option ((Option BaseStationInfo × Option Error) × BaseStation) :=
  match mapLoad db.cache (addr ++ language) with
  | some info => some ((some info, none), db)
  | none =>
    (Ipdb.FindMap parseIP db.reader addr language).bind fun r =>
      match r.1.2 with
      | some err => some ((none, some err), { db with reader := r.2 })
      | none =>
        let data : FieldMap := r.1.1.getD []
        let info : BaseStationInfo :=
          { CountryName := (mapLoad data "country_name").getD []
            RegionName := (mapLoad data "region_name").getD []
            CityName := (mapLoad data "city_name").getD []
            OwnerDomain := (mapLoad data "owner_domain").getD []
            IspDomain := (mapLoad data "isp_domain").getD []
            BaseStation := (mapLoad data "base_station").getD [] }
        some ((some info, none),
          { reader := r.2, cache := mapStore db.cache (addr ++ language) info })

/-- The method `City.Find`. -/
def City.Find (parseIP : String → List Byte) (db : City) (addr language : String) :
    Option (Option (List (List Byte)) × Option Error) :=
  match validateIP parseIP addr with
  | some err => some (none, some err)
  | none => find1 parseIP db.reader addr language

/-- The method `City.FindMap`. -/
def City.FindMap (parseIP : String → List Byte) (db : City) (addr language : String) :
    Option (Option FieldMap × Option Error) :=
  match validateIP parseIP addr with
  | some err => some (none, some err)
  | none =>
    (find1 parseIP db.reader addr language).bind fun r =>
      match r.2 with
      | some err => some (none, some (Error.errorf "查找IP信息失败: %v" err))
      | none =>
        (fillInfo db.reader.meta.Fields (r.1.getD []) 0 []).bind fun info =>
          some (some info, none)

/-- One turn of the loop of `City.FindInfo` (lines 155 to 175): the field of the record
named `goName` is set from the text `v`; a name that is no field of `CityInfo` is skipped.
`unmarshalASN` and `unmarshalDistrict` are `json.Unmarshal` into `[]ASNInfo` and into
`DistrictInfo`, `none` being an error, on which the field is left as it is. -/
def CityInfo.setField (unmarshalASN : List Byte → Option (List ASNInfo))
    (unmarshalDistrict : List Byte → Option DistrictInfo) (info : CityInfo) (goName : String)
    (v : List Byte) : CityInfo :=
  if goName = "ASNInfo" then
    match unmarshalASN v with
    | some asnList => { info with ASNList := asnList }
    | none => info
  else if goName = "DistrictInfo" then
    match unmarshalDistrict v with
    | some dist => { info with District := dist }
    | none => info
  else if goName = "CountryName" then { info with CountryName := v }
  else if goName = "RegionName" then { info with RegionName := v }
  else if goName = "CityName" then { info with CityName := v }
  else if goName = "DistrictName" then { info with DistrictName := v }
  else if goName = "OwnerDomain" then { info with OwnerDomain := v }
  else if goName = "IspDomain" then { info with IspDomain := v }
  else if goName = "Latitude" then { info with Latitude := v }
  else if goName = "Longitude" then { info with Longitude := v }
  else if goName = "Timezone" then { info with Timezone := v }
  else if goName = "UtcOffset" then { info with UtcOffset := v }
  else if goName = "ChinaRegionCode" then { info with ChinaRegionCode := v }
  else if goName = "ChinaCityCode" then { info with ChinaCityCode := v }
  else if goName = "ChinaDistrictCode" then { info with ChinaDistrictCode := v }
  else if goName = "ChinaAdminCode" then { info with ChinaAdminCode := v }
  else if goName = "IddCode" then { info with IddCode := v }
  else if goName = "CountryCode" then { info with CountryCode := v }
  else if goName = "ContinentCode" then { info with ContinentCode := v }
  else if goName = "IDC" then { info with IDC := v }
  else if goName = "BaseStation" then { info with BaseStation := v }
  else if goName = "CountryCode3" then { info with CountryCode3 := v }
  else if goName = "EuropeanUnion" then { info with EuropeanUnion := v }
  else if goName = "CurrencyCode" then { info with CurrencyCode := v }
  else if goName = "CurrencyName" then { info with CurrencyName := v }
  else if goName = "Anycast" then { info with Anycast := v }
  else if goName = "Line" then { info with Line := v }
  else if goName = "Route" then { info with Route := v }
  else if goName = "ASN" then { info with ASN := v }
  else if goName = "AreaCode" then { info with AreaCode := v }
  else if goName = "UsageType" then { info with UsageType := v }
  else info

/-- The loop `for k, v := range data` of `City.FindInfo`, over the entries of the map in
the order of the list; `refType[k]` is the empty string for a key the table does not hold. -/
def CityInfo.decode (unmarshalASN : List Byte → Option (List ASNInfo))
    (unmarshalDistrict : List Byte → Option DistrictInfo) (refType : List (String × String))
    (data : FieldMap) : CityInfo :=
  data.foldl
    (fun info kv =>
      CityInfo.setField unmarshalASN unmarshalDistrict info ((mapLoad refType kv.1).getD "") kv.2)
    {}

/-- The method `City.FindInfo`: the result pair and the handle after the call. -/
def City.FindInfo (parseIP : String → List Byte)
    (unmarshalASN : List Byte → Option (List ASNInfo))
    (unmarshalDistrict : List Byte → Option DistrictInfo) (db : City) (addr language : String) :
    Option ((Option CityInfo × Option Error) × City) :=
  match validateIP parseIP addr with
  | some err => some ((none, some err), db)
  | none =>
    match mapLoad db.cache (addr ++ language) with
    | some info => some ((some info, none), db)
    | none =>
      (Ipdb.FindMap parseIP db.reader addr language).bind fun r =>
        match r.1.2 with
        | some err =>
          some ((none, some (Error.errorf "查找IP信息失败: %v" err)), { db with reader := r.2 })
        | none =>
          let info := CityInfo.decode unmarshalASN unmarshalDistrict r.2.refType (r.1.1.getD [])
          some ((some info, none),
            { reader := r.2, cache := mapStore db.cache (addr ++ language) info })

/-- The method `City.Fields`. -/
def City.Fields (db : City) : List String :=
  db.reader.meta.Fields

/-- The method `City.BuildTime`, in seconds since the epoch. -/
def City.BuildTime (db : City) : Int :=
  Build db.reader

/-! ## Examples for the handles -/

/-- A second example file: the example file with the payload `z<tab>w` in its record. -/
def sampleFile2 : List Byte :=
  [0, 0, 0, 2, 123, 125,
   0, 0, 0, 0, 0, 0, 0, 1,
   0, 0, 0, 3, 0, 0, 0, 1,
   0,
   0, 3, 122, 9, 119]

/-- A file system with two files: `a.ipdb` is `sampleFile`, `b.ipdb` is `sampleFile2`. -/
def sampleFiles : Files :=
  { stat := fun name =>
      if name = "a.ipdb" then Except.ok 28
      else if name = "b.ipdb" then Except.ok 28
      else Except.error "no such file or directory"
    readFile := fun name =>
      if name = "a.ipdb" then some (sampleFile, [])
      else if name = "b.ipdb" then some (sampleFile2, [])
      else none }

/-- The example reader after the lookup of `1.1.1.1` in `CN` by `FindMap`. -/
def sampleReaderCached : Reader :=
  { fileSize := 28
    nodeCount := 2
    v4offset := 1
    meta := sampleMeta
    data := sampleRegion
    spare := []
    refType := []
    cache := [("1.1.1.1CN", [("city_name", [121]), ("country_name", [120])])] }

/-- A base-station handle on the example reader, with an empty cache. -/
def sampleBaseStation : BaseStation :=
  { reader := { sampleReader with refType := baseStationRefType }, cache := [] }

/-- A city handle on the example reader, with an empty cache. -/
def sampleCity : City :=
  { reader := { sampleReader with refType := cityRefType }, cache := [] }

/-! ## The risk handle -/

/-- The function `NewRisk`. -/
def NewRisk (files : Files) (unmarshal : List Byte → Except String MetaData)
    (filename : String) : Option (Option Risk × Option Error) :=
  if filename = "" then
    some (none, some (Error.errorsNew "数据库文件名不能为空"))
  else
    (newReader files unmarshal filename riskRefType).bind fun r =>
      match r.2 with
      | some err => some (none, some (Error.errorf "初始化风险数据库失败: %v" err))
      | none => r.1.bind fun reader => some (some { reader := reader, cache := [] }, none)

/-- The decoding of `Risk.FindInfo` (lines 64 to 78): the record built from the map `data`.
`atoi` is `strconv.Atoi`, `none` being an error, on which `Score` keeps its zero value. -/
def riskInfoOf (atoi : List Byte → Option Int) (data : FieldMap) : RiskInfo :=
  let info0 : RiskInfo := {}
  let info1 : RiskInfo :=
    match mapLoad data "score" with
    | some v =>
      match atoi v with
      | some score => { info0 with Score := score }
      | none => info0
    | none => info0
  let info2 : RiskInfo :=
    match mapLoad data "behavior" with
    | some v => { info1 with Behavior := v }
    | none => info1
  match mapLoad data "country_code" with
  | some v => { info2 with CountryCode := v }
  | none => info2

/-- The method `Risk.FindInfo`: the result pair and the handle after the call.  The cache
of the handle is keyed by the address, the language is the constant `CN`. -/
def Risk.FindInfo (parseIP : String → List Byte) (atoi : List Byte → Option Int) (r : Risk)
    (addr : String) : Option ((Option RiskInfo × Option Error) × Risk) :=
  match validateIP parseIP addr with
  | some err => some ((none, some err), r)
  | none =>
    match mapLoad r.cache addr with
    | some info => some ((some info, none), r)
    | none =>
      (Ipdb.FindMap parseIP r.reader addr "CN").bind fun f =>
        match f.1.2 with
        | some err =>
          some ((none, some (Error.errorf "查询风险信息失败: %v" err)), { r with reader := f.2 })
        | none =>
          let info := riskInfoOf atoi (f.1.1.getD [])
          some ((some info, none), { reader := f.2, cache := mapStore r.cache addr info })

/-- The risk handles that a program can hold: one returned by `NewRisk`, and the handle
after a call of `FindInfo`, `ClearCache` or `Reload` on such a handle. -/
inductive RiskReachable (files : Files) (unmarshal : List Byte → Except String MetaData)
    (parseIP : String → List Byte) (atoi : List Byte → Option Int) : Risk → Prop where
  | new (filename : String) (r : Risk)
      (h : NewRisk files unmarshal filename = some (some r, none)) :
      RiskReachable files unmarshal parseIP atoi r
  | findInfo (r r2 : Risk) (addr : String) (res : Option RiskInfo × Option Error)
      (hr : RiskReachable files unmarshal parseIP atoi r)
      (h : Risk.FindInfo parseIP atoi r addr = some (res, r2)) :
      RiskReachable files unmarshal parseIP atoi r2
  | clearCache (r : Risk) (hr : RiskReachable files unmarshal parseIP atoi r) :
      RiskReachable files unmarshal parseIP atoi (Risk.ClearCache r)
  | reload (r r2 : Risk) (filename : String) (e : Option Error)
      (hr : RiskReachable files unmarshal parseIP atoi r)
      (h : Risk.Reload files unmarshal r filename = some (e, r2)) :
      RiskReachable files unmarshal parseIP atoi r2

/-- The invariant of the two caches of a risk handle: a record cached for an address is
the decoding of the map that the reader caches for that address and `CN`. -/
def RiskConsistent (atoi : List Byte → Option Int) (r : Risk) : Prop :=
  ∀ addr info, mapLoad r.cache addr = some info →
    ∃ m, mapLoad r.reader.cache (addr ++ "CN") = some m ∧ info = riskInfoOf atoi m

/-- A metadata block for a risk file: the fields `score`, `behavior`, `country_code`. -/
def riskMeta : MetaData :=
  { Build := 1700000000
    IPVersion := 1
    Languages := [("CN", 0)]
    NodeCount := 2
    TotalSize := 29
    Fields := ["score", "behavior", "country_code"] }

/-- A stand-in for `json.Unmarshal` that reads `riskMeta` from the bytes `123 125`. -/
def riskUnmarshal (b : List Byte) : Except String MetaData :=
  if b = [123, 125] then Except.ok riskMeta else Except.error "unexpected end of JSON input"

/-- A risk file: the trie of the example file and the record `85<tab>scan<tab>CN`. -/
def riskFile : List Byte :=
  [0, 0, 0, 2, 123, 125,
   0, 0, 0, 0, 0, 0, 0, 1,
   0, 0, 0, 3, 0, 0, 0, 1,
   0,
   0, 10, 56, 53, 9, 115, 99, 97, 110, 9, 67, 78]

/-- A file system with the risk file under the name `risk.ipdb`. -/
def riskFiles : Files :=
  { stat := fun name =>
      if name = "risk.ipdb" then Except.ok 35 else Except.error "no such file or directory"
    readFile := fun name => if name = "risk.ipdb" then some (riskFile, []) else none }

/-- The handle that `NewRisk` returns for `risk.ipdb`. -/
def sampleRisk : Risk :=
  { reader :=
      { fileSize := 35
        nodeCount := 2
        v4offset := 1
        meta := riskMeta
        data := riskFile.drop 6
        spare := []
        refType := riskRefType
        cache := [] }
    cache := [] }

/-- A stand-in for `strconv.Atoi` in the examples: it reads one or two decimal digits. -/
def sampleAtoi (v : List Byte) : Option Int :=
  match v with
  | [d] => if 48 ≤ d.val ∧ d.val ≤ 57 then some ((d.val : Int) - 48) else none
  | [c, d] =>
    if 48 ≤ c.val ∧ c.val ≤ 57 ∧ 48 ≤ d.val ∧ d.val ≤ 57 then
      some (((c.val : Int) - 48) * 10 + ((d.val : Int) - 48))
    else
      none
  | _ => none

/-- The map that the lookup of `1.1.1.1` gives on the risk file. -/
def sampleRiskMap : FieldMap :=
  [("country_code", [67, 78]), ("behavior", [115, 99, 97, 110]), ("score", [56, 53])]

/-- The reader of `sampleRisk` after the lookup of `1.1.1.1` by `FindMap`. -/
def sampleRiskReaderCached : Reader :=
  { fileSize := 35
    nodeCount := 2
    v4offset := 1
    meta := riskMeta
    data := riskFile.drop 6
    spare := []
    refType := riskRefType
    cache := [("1.1.1.1CN", sampleRiskMap)] }

/-! ## An example file with a language offset of `2^63 - 1` -/

/-- The metadata of `sampleMeta` with the offset of language `CN` set to `maxInt`. -/
def overflowMeta : MetaData :=
  { Build := 1700000000
    IPVersion := 3
    Languages := [("CN", 9223372036854775807)]
    NodeCount := 2
    TotalSize := 22
    Fields := ["country_name", "city_name"] }

/-- The 143 bytes of the JSON text of `overflowMeta`, with the keys `build`, `ip_version`,
`languages` (the object with the one key `CN` and the value 9223372036854775807),
`node_count`, `total_size` and `fields` in this order and no white space. -/
def overflowMetaBytes : List Byte :=
  [123, 34, 98, 117, 105, 108, 100, 34, 58, 49, 55, 48, 48, 48, 48, 48, 48, 48, 48, 44, 34,
   105, 112, 95, 118, 101, 114, 115, 105, 111, 110, 34, 58, 51, 44, 34, 108, 97, 110, 103,
   117, 97, 103, 101, 115, 34, 58, 123, 34, 67, 78, 34, 58, 57, 50, 50, 51, 51, 55, 50, 48,
   51, 54, 56, 53, 52, 55, 55, 53, 56, 48, 55, 125, 44, 34, 110, 111, 100, 101, 95, 99, 111,
   117, 110, 116, 34, 58, 50, 44, 34, 116, 111, 116, 97, 108, 95, 115, 105, 122, 101, 34,
   58, 50, 50, 44, 34, 102, 105, 101, 108, 100, 115, 34, 58, 91, 34, 99, 111, 117, 110, 116,
   114, 121, 95, 110, 97, 109, 101, 34, 44, 34, 99, 105, 116, 121, 95, 110, 97, 109, 101,
   34, 93, 125]

/-- The value of `json.Unmarshal` on `overflowMetaBytes` is `overflowMeta`; the stand-in
rejects every other input. -/
def overflowUnmarshal (b : List Byte) : Except String MetaData :=
  if b = overflowMetaBytes then Except.ok overflowMeta
  else Except.error "unexpected end of JSON input"

/-- The file: the length prefix 143, the metadata text, the region of the example file. -/
def overflowFile : List Byte :=
  [0, 0, 0, 143] ++ overflowMetaBytes ++ sampleRegion

/-- The reader that loading `overflowFile` gives. -/
def overflowReader : Reader :=
  { fileSize := 169
    nodeCount := 2
    v4offset := 1
    meta := overflowMeta
    data := sampleRegion
    spare := []
    refType := []
    cache := [] }

/-! ## Slice expressions -/

theorem sliceExpr_eq_some_iff {α : Type} (backing : List α) (lo hi : Int) (r : List α) :
    sliceExpr backing lo hi = some r ↔
      (0 ≤ lo ∧ lo ≤ hi ∧ hi ≤ (backing.length : Int)) ∧
        r = (backing.drop lo.toNat).take (hi - lo).toNat := by
  unfold sliceExpr
  split
  · rename_i h
    simp only [Option.some.injEq, h, true_and]
    exact eq_comm
  · rename_i h
    simp [h]

theorem sliceExpr_eq_none_iff {α : Type} (backing : List α) (lo hi : Int) :
    sliceExpr backing lo hi = none ↔ ¬ (0 ≤ lo ∧ lo ≤ hi ∧ hi ≤ (backing.length : Int)) := by
  unfold sliceExpr
  split <;> simp_all

theorem sliceExpr_of_bounds {α : Type} (backing : List α) (lo hi : Int)
    (h0 : 0 ≤ lo) (h1 : lo ≤ hi) (h2 : hi ≤ (backing.length : Int)) :
    sliceExpr backing lo hi = some ((backing.drop lo.toNat).take (hi - lo).toNat) := by
  unfold sliceExpr
  rw [if_pos ⟨h0, h1, h2⟩]

theorem sliceExpr_length {α : Type} (backing : List α) (lo hi : Int) (r : List α)
    (h : sliceExpr backing lo hi = some r) : (r.length : Int) = hi - lo := by
  obtain ⟨⟨h0, h1, h2⟩, rfl⟩ := (sliceExpr_eq_some_iff backing lo hi r).1 h
  rw [List.length_take, List.length_drop]
  omega

/-- Within the length, a slice expression does not see the spare capacity. -/
theorem sliceExpr_append_of_le {α : Type} (data spare : List α) (lo hi : Int)
    (h0 : 0 ≤ lo) (h1 : lo ≤ hi) (h2 : hi ≤ (data.length : Int)) :
    sliceExpr (data ++ spare) lo hi = some ((data.drop lo.toNat).take (hi - lo).toNat) := by
  rw [sliceExpr_of_bounds (data ++ spare) lo hi h0 h1 (by rw [List.length_append]; omega)]
  congr 1
  rw [List.drop_append_of_le_length (by omega), List.take_append_of_le_length]
  rw [List.length_drop]
  omega

/-! ## What a successful load establishes -/

/-- The reader that `initBytes` builds before it walks the IPv4 prefix. -/
theorem initBytes_ok_inv (unmarshal : List Byte → Except String MetaData)
    (body spare : List Byte) (fileSize : Int) (dm : List (String × String)) (db : Reader)
    (e : Option Error)
    (h : initBytes unmarshal body spare fileSize dm = some (some db, e)) :
    ∃ (hdr : List Byte) (len32 : Nat) (metaBytes : List Byte) (m : MetaData) (node : Int),
      sliceExpr (body ++ spare) 0 4 = some hdr ∧ Uint32 hdr = some len32 ∧
      sliceExpr (body ++ spare) 4 (4 + (len32 : Int)) = some metaBytes ∧
      unmarshal metaBytes = Except.ok m ∧
      m.Languages ≠ [] ∧ m.Fields ≠ [] ∧
      fileSize = 4 + (len32 : Int) + m.TotalSize ∧
      4 + (len32 : Int) ≤ (body.length : Int) ∧
      v4Walk { fileSize := fileSize, nodeCount := m.NodeCount, v4offset := 0, meta := m,
               data := body.drop (4 + (len32 : Int)).toNat, spare := spare, refType := dm,
               cache := [] } 96 0 0 = some node ∧
      e = none ∧
      db = { fileSize := fileSize, nodeCount := m.NodeCount, v4offset := node, meta := m,
             data := body.drop (4 + (len32 : Int)).toNat, spare := spare, refType := dm,
             cache := [] } := by
  unfold initBytes at h
  cases hhdr : sliceExpr (body ++ spare) 0 4 with
  | none => simp [hhdr] at h
  | some hdr =>
    cases hlen : Uint32 hdr with
    | none => simp [hhdr, hlen] at h
    | some len32 =>
      simp only [hhdr, hlen, Option.some_bind] at h
      split at h
      · simp at h
      · cases hmb : sliceExpr (body ++ spare) 4 (4 + (len32 : Int)) with
        | none => simp [hmb] at h
        | some metaBytes =>
          simp only [hmb, Option.some_bind] at h
          cases hm : unmarshal metaBytes with
          | error err => simp [hm] at h
          | ok m =>
            simp only [hm] at h
            split at h
            · simp at h
            · rename_i hne
              split at h
              · simp at h
              · rename_i hsz
                split at h
                · rename_i hle
                  simp only [if_true] at h
                  obtain ⟨node, hw, h⟩ := Option.bind_eq_some.1 h
                  simp only [Option.some.injEq, Prod.mk.injEq] at h
                  refine ⟨hdr, len32, metaBytes, m, node, rfl, hlen, hmb, hm, ?_, ?_, ?_,
                    hle, hw, h.2.symm, h.1.symm⟩
                  · intro hl; apply hne; left; simp [hl]
                  · intro hl; apply hne; right; simp [hl]
                  · simpa using hsz
                · simp at h

/-- What a reader returned by `newReaderFromBytes` looks like, in terms of the buffer. -/
theorem newReaderFromBytes_ok_inv (unmarshal : List Byte → Except String MetaData)
    (body spare : List Byte) (dm : List (String × String)) (db : Reader) (e : Option Error)
    (h : newReaderFromBytes unmarshal body spare dm = some (some db, e)) :
    ∃ (len32 : Nat),
      e = none ∧
      Uint32 (body.take 4) = some len32 ∧
      unmarshal ((body.drop 4).take len32) = Except.ok db.meta ∧
      db.meta.Languages ≠ [] ∧ db.meta.Fields ≠ [] ∧
      db.fileSize = (body.length : Int) ∧
      (body.length : Int) = 4 + (len32 : Int) + db.meta.TotalSize ∧
      db.data = body.drop (4 + len32) ∧
      db.spare = spare ∧
      db.nodeCount = db.meta.NodeCount ∧
      db.refType = dm ∧ db.cache = [] ∧
      v4Walk { db with v4offset := 0 } 96 0 0 = some db.v4offset := by
  unfold newReaderFromBytes at h
  split at h
  · simp at h
  · rename_i h4
    obtain ⟨hdr, len32, metaBytes, m, node, hhdr, hlen, hmb, hm, hl, hf, hsz, hle, hw, he, hdb⟩ :=
      initBytes_ok_inv unmarshal body spare body.length dm db e h
    have hhdr2 := sliceExpr_append_of_le body spare 0 4 (by omega) (by omega) (by omega)
    rw [hhdr] at hhdr2
    have hmb2 := sliceExpr_append_of_le body spare 4 (4 + (len32 : Int)) (by omega) (by omega) hle
    rw [hmb] at hmb2
    have e1 : (4 + (len32 : Int) - 4).toNat = len32 := by omega
    have e2 : (4 + (len32 : Int)).toNat = 4 + len32 := by omega
    simp only [Option.some.injEq] at hhdr2 hmb2
    simp only [Int.toNat_zero, List.drop_zero, sub_zero] at hhdr2
    rw [e1] at hmb2
    rw [e2] at hdb hw
    subst hdb
    refine ⟨len32, he, ?_, ?_, hl, hf, rfl, hsz, rfl, rfl, rfl, rfl, rfl, hw⟩
    · rw [← hlen, hhdr2]; rfl
    · rw [← hm, hmb2]; rfl

/-! ## The field decoder -/

/-- Within the range of an `int` the 64-bit sum is the exact sum. -/
theorem addInt_of_range (a b : Int) (h1 : -9223372036854775808 ≤ a + b)
    (h2 : a + b ≤ 9223372036854775807) : addInt a b = a + b := by
  unfold addInt
  omega

/-- Past `maxInt` the 64-bit sum of an offset and a length is negative. -/
theorem addInt_neg_of_overflow (a b : Int) (ha : a ≤ 9223372036854775807)
    (hb : b ≤ 9223372036854775807) (h : 9223372036854775807 < a + b) : addInt a b < 0 := by
  unfold addInt
  omega

/-- The length of a list of at most `maxInt` elements. -/
theorem lenInt_of_le {α : Type} (xs : List α) (h : (xs.length : Int) ≤ 9223372036854775807) :
    lenInt xs = (xs.length : Int) := by
  unfold lenInt maxInt
  exact min_eq_left h

/-- The value of `binary.BigEndian.Uint16` is below `2^16`. -/
theorem Uint16_lt (b : List Byte) (s : Nat) (h : Uint16 b = some s) : s < 65536 := by
  unfold Uint16 at h
  cases h0 : b[0]? with
  | none => simp [h0] at h
  | some b0 =>
    cases h1 : b[1]? with
    | none => simp [h0, h1] at h
    | some b1 =>
      simp [h0, h1] at h
      subst h
      have hb0 : b0.val <<< 8 < 2 ^ 16 := by
        rw [Nat.shiftLeft_eq]
        have := b0.isLt
        omega
      have hb1 : b1.val < 2 ^ 16 := by
        have := b1.isLt
        omega
      exact Nat.or_lt_two_pow hb1 hb0

/-- Splitting at the tab bytes gives at most one piece more than there are bytes. -/
theorem splitTab_length_le (l : List Byte) : (splitTab l).length ≤ l.length + 1 := by
  induction l with
  | nil => simp [splitTab]
  | cons b rest ih =>
    unfold splitTab
    split
    · simp only [List.length_cons]
      omega
    · cases hs : splitTab rest with
      | nil => simp
      | cons t ts =>
        rw [hs] at ih
        simp only [List.length_cons] at ih ⊢
        omega

/-- A record that `resolve` returns is shorter than `2^16` bytes. -/
theorem resolve_body_length (db : Reader) (node : Int) (body : Option (List Byte))
    (e : Option Error) (h : resolve db node = some (body, e)) :
    (body.getD []).length < 65536 := by
  unfold resolve at h
  simp only at h
  split at h
  · simp only [Option.some.injEq, Prod.mk.injEq] at h
    rw [← h.1]
    simp
  · obtain ⟨b, -, h1⟩ := Option.bind_eq_some.1 h
    obtain ⟨size16, hs, h2⟩ := Option.bind_eq_some.1 h1
    have hlt := Uint16_lt b size16 hs
    split at h2
    · simp only [Option.some.injEq, Prod.mk.injEq] at h2
      rw [← h2.1]
      simp
    · obtain ⟨bytes, hb, h3⟩ := Option.bind_eq_some.1 h2
      simp only [Option.some.injEq, Prod.mk.injEq] at h3
      rw [← h3.1]
      have := sliceExpr_length _ _ _ _ hb
      simp only [Option.getD_some]
      omega

/-- A record that `find0` returns is shorter than `2^16` bytes. -/
theorem find0_body_length (parseIP : String → List Byte) (db : Reader) (addr : String)
    (body : Option (List Byte)) (e : Option Error)
    (h : find0 parseIP db addr = some (body, e)) : (body.getD []).length < 65536 := by
  have key : ∀ (ip : List Byte) (bits : Int),
      (search db ip bits).bind (find0Resolve db) = some (body, e) →
        (body.getD []).length < 65536 := by
    intro ip bits hb
    obtain ⟨r, -, hr⟩ := Option.bind_eq_some.1 hb
    unfold find0Resolve at hr
    split at hr
    · simp only [Option.some.injEq, Prod.mk.injEq] at hr
      rw [← hr.1]
      simp
    · exact resolve_body_length db r.1 body e hr
  unfold find0 at h
  simp only at h
  split at h
  · split at h
    · simp only [Option.some.injEq, Prod.mk.injEq] at h
      rw [← h.1]
      simp
    · exact key _ _ h
  · split at h
    · split at h
      · simp only [Option.some.injEq, Prod.mk.injEq] at h
        rw [← h.1]
        simp
      · exact key _ _ h
    · simp only [Option.some.injEq, Prod.mk.injEq] at h
      rw [← h.1]
      simp

/-- The record of `find0` splits into fewer than `2^17` tokens. -/
theorem find0_tokens_length (parseIP : String → List Byte) (db : Reader) (addr : String)
    (body : Option (List Byte)) (e : Option Error)
    (h : find0 parseIP db addr = some (body, e)) :
    ((splitTab (body.getD [])).length : Int) ≤ 65536 := by
  have h1 := find0_body_length parseIP db addr body e h
  have h2 := splitTab_length_le (body.getD [])
  omega

theorem find1_of_find0_ok (parseIP : String → List Byte) (db : Reader) (addr language : String)
    (off : Int) (body : Option (List Byte))
    (hlang : db.meta.Languages.lookup language = some off) (hoff : 0 ≤ off)
    (hsum : off + (db.meta.Fields.length : Int) ≤ 9223372036854775807)
    (hbody : find0 parseIP db addr = some (body, none)) :
    find1 parseIP db addr language =
      if off + (db.meta.Fields.length : Int) ≤ ((splitTab (body.getD [])).length : Int) then
        some (some (((splitTab (body.getD [])).drop off.toNat).take db.meta.Fields.length), none)
      else
        some (none, some Error.ErrDatabase) := by
  have htok := find0_tokens_length parseIP db addr body none hbody
  have hlf : lenInt db.meta.Fields = (db.meta.Fields.length : Int) :=
    lenInt_of_le _ (by omega)
  have hlt : lenInt (splitTab (body.getD [])) = ((splitTab (body.getD [])).length : Int) :=
    lenInt_of_le _ (by omega)
  have hadd : addInt off (db.meta.Fields.length : Int) = off + (db.meta.Fields.length : Int) :=
    addInt_of_range _ _ (by omega) hsum
  unfold find1
  simp only [hlang, hbody, Option.some_bind, hlf, hlt, hadd]
  by_cases hc : off + (db.meta.Fields.length : Int) ≤ ((splitTab (body.getD [])).length : Int)
  · rw [if_pos hc, if_neg (by omega),
      sliceExpr_of_bounds _ _ _ hoff (by omega) hc]
    have e1 : (off + (db.meta.Fields.length : Int) - off).toNat = db.meta.Fields.length := by
      omega
    simp only [Option.some_bind, e1]
  · rw [if_neg hc, if_pos (by omega)]

/-- Past `maxInt` the sum of `find1` has wrapped: `find1` panics in the slice expression. -/
theorem find1_of_overflow (parseIP : String → List Byte) (db : Reader) (addr language : String)
    (off : Int) (body : Option (List Byte))
    (hlang : db.meta.Languages.lookup language = some off)
    (hmax : off ≤ 9223372036854775807)
    (hlen : (db.meta.Fields.length : Int) ≤ 9223372036854775807)
    (hsum : 9223372036854775807 < off + (db.meta.Fields.length : Int))
    (hbody : find0 parseIP db addr = some (body, none)) :
    find1 parseIP db addr language = none := by
  have hneg : addInt off (lenInt db.meta.Fields) < 0 := by
    unfold addInt lenInt maxInt
    omega
  have hnn : 0 ≤ lenInt (splitTab (body.getD [])) := by
    unfold lenInt maxInt
    omega
  unfold find1
  simp only [hlang, hbody, Option.some_bind]
  rw [if_neg (by omega), (sliceExpr_eq_none_iff _ _ _).2 (by omega)]
  rfl

/-- C1. On a loaded snapshot, for a supported language with offset `off >= 0` such that
`off + len(fields)` is at most the largest `int` (`2^63 - 1`), and an address whose record
`find0` resolves to `body`: `find1` (and `Find`, which is `find1` under the lock) succeeds
exactly when the tab-split payload has at least `off + len(fields)` tokens; it then returns
the tokens `[off, off+len(fields))` in order, so `len(fields)` values and at least one; with
fewer tokens it returns `ErrDatabase` and no values. -/
theorem find1_field_slice (unmarshal : List Byte → Except String MetaData)
    (parseIP : String → List Byte) (buf spare : List Byte) (dm : List (String × String))
    (db : Reader) (addr language : String) (off : Int) (body : Option (List Byte))
    (hload : newReaderFromBytes unmarshal buf spare dm = some (some db, none))
    (hlang : db.meta.Languages.lookup language = some off) (hoff : 0 ≤ off)
    (hsum : off + (db.meta.Fields.length : Int) ≤ 9223372036854775807)
    (hbody : find0 parseIP db addr = some (body, none)) :
    (find1 parseIP db addr language =
      if off + (db.meta.Fields.length : Int) ≤ ((splitTab (body.getD [])).length : Int) then
        some (some (((splitTab (body.getD [])).drop off.toNat).take db.meta.Fields.length), none)
      else
        some (none, some Error.ErrDatabase)) ∧
    ((∃ vals, find1 parseIP db addr language = some (some vals, none)) ↔
      off + (db.meta.Fields.length : Int) ≤ ((splitTab (body.getD [])).length : Int)) ∧
    (∀ vals, find1 parseIP db addr language = some (some vals, none) →
      vals.length = db.meta.Fields.length ∧ vals ≠ [] ∧
      ∀ i, i < db.meta.Fields.length → vals[i]? = (splitTab (body.getD []))[off.toNat + i]?) ∧
    Find parseIP db addr language = find1 parseIP db addr language := by
  obtain ⟨len32, -, -, -, -, hfields, -⟩ :=
    newReaderFromBytes_ok_inv unmarshal buf spare dm db none hload
  have hmain := find1_of_find0_ok parseIP db addr language off body hlang hoff hsum hbody
  have hpos : 0 < db.meta.Fields.length := List.length_pos.2 hfields
  refine ⟨hmain, ?_, ?_, rfl⟩
  · rw [hmain]
    constructor
    · rintro ⟨vals, hv⟩
      by_contra hc
      rw [if_neg hc] at hv
      simp at hv
    · intro hc
      rw [if_pos hc]
      exact ⟨_, rfl⟩
  · intro vals hv
    rw [hmain] at hv
    by_cases hc : off + (db.meta.Fields.length : Int) ≤ ((splitTab (body.getD [])).length : Int)
    · rw [if_pos hc] at hv
      simp only [Option.some.injEq, Prod.mk.injEq, and_true] at hv
      subst hv
      have hlen : (List.take db.meta.Fields.length
          (List.drop off.toNat (splitTab (body.getD [])))).length = db.meta.Fields.length := by
        rw [List.length_take, List.length_drop]
        omega
      refine ⟨hlen, ?_, ?_⟩
      · intro h0
        rw [h0] at hlen
        simp at hlen
        omega
      · intro i hi
        rw [List.getElem?_take_of_lt hi, List.getElem?_drop]
    · rw [if_neg hc] at hv
      simp at hv

/-- C1, at the example file: the address `1.1.1.1` in language `CN`. -/
theorem find1_field_slice_witness :
    find1 sampleParseIP sampleReader "1.1.1.1" "CN" = some (some [[120], [121]], none) := by
  have h := (find1_field_slice sampleUnmarshal sampleParseIP sampleFile [] [] sampleReader
    "1.1.1.1" "CN" 0 (some [120, 9, 121]) (by decide) (by decide) (by decide) (by decide)
    (by decide)).1
  rw [h]
  decide

/-- C1 as stated fails at a language offset of `2^63 - 1`.  The file `overflowFile` loads;
language `CN` is supported with the offset `off = 9223372036854775807 >= 0`; `find0`
resolves the address `1.1.1.1` to the record `x<tab>y` of two tokens, fewer than
`off + len(fields)`; and `find1` does not return `ErrDatabase`: the sum wraps to
`-9223372036854775807`, the test against `len(tmp)` is false and the slice expression
`tmp[off:sum]` panics, in `Find` as well. -/
theorem find1_offset_overflow :
    newReaderFromBytes overflowUnmarshal overflowFile [] [] = some (some overflowReader, none) ∧
    overflowReader.meta.Languages.lookup "CN" = some 9223372036854775807 ∧
    (0 : Int) ≤ 9223372036854775807 ∧
    find0 sampleParseIP overflowReader "1.1.1.1" = some (some [120, 9, 121], none) ∧
    ((splitTab [120, 9, 121]).length : Int)
      < 9223372036854775807 + (overflowReader.meta.Fields.length : Int) ∧
    addInt 9223372036854775807 (lenInt overflowReader.meta.Fields) = -9223372036854775807 ∧
    find1 sampleParseIP overflowReader "1.1.1.1" "CN" = none ∧
    Find sampleParseIP overflowReader "1.1.1.1" "CN" = none ∧
    find1 sampleParseIP overflowReader "1.1.1.1" "CN" ≠ some (none, some Error.ErrDatabase) := by
  refine ⟨?_, ?_, ?_, ?_, ?_, ?_, ?_, ?_, ?_⟩ <;> decide

/-! ## The trie search -/

/-- The node `search` starts from. -/
theorem search_unfold (db : Reader) (ip : List Byte) (bitCount : Int) :
    search db ip bitCount =
      (searchLoop db ip bitCount.toNat 0 (if bitCount = 32 then db.v4offset else 0)).bind
        fun node => if node > db.nodeCount then some (node, none)
          else some (-1, some Error.ErrDataNotExists) := rfl

/-- C2. With the walk of `search` being its loop from the start node (`v4offset` for 32 bits,
the root otherwise): `search` returns a node `n` and no error exactly when the walk ends on
`n` and `n > nodeCount`; when the walk ends on a value equal to `nodeCount` or below it
(the bits ran out), `search` returns `-1` with `ErrDataNotExists`, and `find0`, on either
address family, returns `nil` with that error: the node does not reach `resolve`. -/
theorem search_terminal_strict (db : Reader) (ip : List Byte) (bitCount : Int) :
    (∀ n, search db ip bitCount = some (n, none) ↔
      (searchLoop db ip bitCount.toNat 0 (if bitCount = 32 then db.v4offset else 0) = some n ∧
        n > db.nodeCount)) ∧
    (∀ w, searchLoop db ip bitCount.toNat 0 (if bitCount = 32 then db.v4offset else 0) = some w →
      w ≤ db.nodeCount →
      search db ip bitCount = some (-1, some Error.ErrDataNotExists) ∧
      (∀ (parseIP : String → List Byte) (addr : String),
        ((To4 (parseIP addr) = some ip ∧ IsIPv4Support db = true ∧ bitCount = 32) ∨
         (To4 (parseIP addr) = none ∧ To16 (parseIP addr) = some ip ∧
            IsIPv6Support db = true ∧ bitCount = 128)) →
        find0 parseIP db addr = some (none, some Error.ErrDataNotExists))) := by
  constructor
  · intro n
    rw [search_unfold]
    cases hw : searchLoop db ip bitCount.toNat 0 (if bitCount = 32 then db.v4offset else 0) with
    | none => simp
    | some w =>
      simp only [Option.some_bind, Option.some.injEq]
      by_cases hgt : w > db.nodeCount
      · rw [if_pos hgt]
        simp only [Option.some.injEq, Prod.mk.injEq, and_true]
        constructor
        · intro h; subst h; exact ⟨rfl, hgt⟩
        · intro h; exact h.1
      · rw [if_neg hgt]
        simp only [Option.some.injEq, Prod.mk.injEq]
        constructor
        · intro h; simp at h
        · intro h; exact absurd (h.1 ▸ h.2) hgt
  · intro w hw hle
    have hs : search db ip bitCount = some (-1, some Error.ErrDataNotExists) := by
      rw [search_unfold, hw]
      simp only [Option.some_bind]
      rw [if_neg (by omega)]
    refine ⟨hs, ?_⟩
    intro parseIP addr hcase
    unfold find0
    rcases hcase with ⟨h4, hsup, hbc⟩ | ⟨h4, h16, hsup, hbc⟩
    · subst hbc
      simp [h4, hsup, hs, find0Resolve]
    · subst hbc
      simp [h4, h16, hsup, hs, find0Resolve]

/-- C2, at the example file: the walk for `255.255.255.255` ends below `nodeCount`. -/
theorem search_terminal_strict_witness :
    search sampleReader [255, 255, 255, 255] 32 = some (-1, some Error.ErrDataNotExists) ∧
    find0 sampleParseIP sampleReader "255.255.255.255" =
      some (none, some Error.ErrDataNotExists) := by
  have h := (search_terminal_strict sampleReader [255, 255, 255, 255] 32).2 1
    (by decide) (by decide)
  exact ⟨h.1, h.2 sampleParseIP "255.255.255.255" (Or.inl (by decide))⟩

/-! ## The walk against the reference walk -/

theorem be32_eq (a b c d : Nat) (hb : b < 256) (hc : c < 256) (hd : d < 256) :
    d ||| (c <<< 8) ||| (b <<< 16) ||| (a <<< 24) = a * 2 ^ 24 + b * 2 ^ 16 + c * 2 ^ 8 + d := by
  have h1 : d ||| (c <<< 8) = 2 ^ 8 * c + d := by
    rw [Nat.mul_add_lt_is_or (by omega) c, Nat.shiftLeft_eq, Nat.lor_comm, Nat.mul_comm]
  have h2 : (2 ^ 8 * c + d) ||| (b <<< 16) = 2 ^ 16 * b + (2 ^ 8 * c + d) := by
    rw [Nat.mul_add_lt_is_or (by omega) b, Nat.shiftLeft_eq, Nat.lor_comm, Nat.mul_comm]
  have h3 : (2 ^ 16 * b + (2 ^ 8 * c + d)) ||| (a <<< 24)
      = 2 ^ 24 * a + (2 ^ 16 * b + (2 ^ 8 * c + d)) := by
    rw [Nat.mul_add_lt_is_or (by omega) a, Nat.shiftLeft_eq, Nat.lor_comm, Nat.mul_comm]
  rw [h1, h2, h3]
  omega

theorem getElem?_eq_some_getD {α : Type} (l : List α) (i : Nat) (d : α) (h : i < l.length) :
    l[i]? = some (l.getD i d) := by
  rw [List.getD_eq_getElem?_getD, List.getElem?_eq_getElem h]
  rfl

/-- Inside the region, `Uint32` of a 4-byte slice is the big-endian value of the reference. -/
theorem Uint32_slice (region : List Byte) (off : Nat) (h : off + 4 ≤ region.length) :
    Uint32 ((region.drop off).take 4) = some (specBE32 region off) := by
  have g : ∀ k, k < 4 → ((region.drop off).take 4)[k]? = some (region.getD (off + k) 0) := by
    intro k hk
    rw [List.getElem?_take_of_lt hk, List.getElem?_drop]
    exact getElem?_eq_some_getD region (off + k) 0 (by omega)
  unfold Uint32 specBE32
  rw [g 0 (by omega), g 1 (by omega), g 2 (by omega), g 3 (by omega)]
  simp only [Option.bind_eq_bind, Option.some_bind, Option.some.injEq, Nat.add_zero]
  exact be32_eq _ _ _ _ (Fin.isLt _) (Fin.isLt _) (Fin.isLt _)

/-- A node read inside the index region: no panic, and the value of the reference. -/
theorem readNode_in_index (db : Reader) (node : Int) (bit : Nat) (h0 : 0 ≤ node)
    (hlt : node < db.nodeCount) (hbit : bit ≤ 1)
    (hidx : db.nodeCount * 8 ≤ (db.data.length : Int)) :
    readNode db node (bit : Int) = some ((specBE32 db.data (node.toNat * 8 + bit * 4) : Nat) : Int) := by
  unfold readNode
  have hoff : node * 8 + (bit : Int) * 4 = ((node.toNat * 8 + bit * 4 : Nat) : Int) := by
    omega
  simp only [Option.bind_eq_bind]
  rw [hoff, sliceExpr_append_of_le db.data db.spare _ _ (by omega) (by omega) (by omega)]
  have e1 : (((node.toNat * 8 + bit * 4 : Nat) : Int)).toNat = node.toNat * 8 + bit * 4 := by
    omega
  have e2 : (((node.toNat * 8 + bit * 4 : Nat) : Int) + 4
      - ((node.toNat * 8 + bit * 4 : Nat) : Int)).toNat = 4 := by omega
  rw [e1, e2]
  simp only [Option.some_bind]
  rw [Uint32_slice db.data _ (by omega)]
  rfl

theorem branch_eq_specBit (ip : List Byte) (i : Nat) (b : Byte) (h : ip[i >>> 3]? = some b) :
    (b.val >>> (7 - (i &&& 7))) &&& 1 = specBit ip i := by
  have h7 : i &&& 7 = i % 8 := Nat.and_pow_two_sub_one_eq_mod i 3
  have h3 : i >>> 3 = i / 8 := by rw [Nat.shiftRight_eq_div_pow]
  unfold specBit
  rw [h3] at h
  rw [List.getD_eq_getElem?_getD, h, h7, Nat.and_one_is_mod, Nat.shiftRight_eq_div_pow]
  rfl

theorem specBit_le_one (ip : List Byte) (i : Nat) : specBit ip i ≤ 1 := by
  unfold specBit
  omega

theorem specBE32_nonneg (region : List Byte) (off : Nat) : (0 : Int) ≤ (specBE32 region off : Nat) :=
  Int.natCast_nonneg _

/-- The loop of `search` against the reference walk, from any position. -/
theorem searchLoop_eq_specWalk (db : Reader) (ip : List Byte)
    (hidx : db.nodeCount * 8 ≤ (db.data.length : Int)) :
    ∀ (remaining i : Nat) (node : Int), 0 ≤ node → i + remaining ≤ 8 * ip.length →
      searchLoop db ip remaining i node =
        some (specWalk db.data db.nodeCount ((List.range' i remaining).map (specBit ip)) node) := by
  intro remaining
  induction remaining with
  | zero =>
    intro i node _ _
    simp [searchLoop, specWalk]
  | succ k ih =>
    intro i node h0 hlen
    rw [List.range'_succ, List.map_cons]
    unfold searchLoop specWalk
    by_cases hlt : node < db.nodeCount
    · rw [if_pos hlt, if_pos hlt]
      have h3 : i >>> 3 = i / 8 := by rw [Nat.shiftRight_eq_div_pow]
      have hin : i >>> 3 < ip.length := by rw [h3]; omega
      rw [getElem?_eq_some_getD ip (i >>> 3) 0 hin]
      simp only [Option.some_bind]
      rw [branch_eq_specBit ip i _ (getElem?_eq_some_getD ip (i >>> 3) 0 hin),
        readNode_in_index db node (specBit ip i) h0 hlt (specBit_le_one ip i) hidx]
      simp only [Option.some_bind]
      exact ih (i + 1) _ (specBE32_nonneg _ _) (by omega)
    · rw [if_neg hlt, if_neg hlt]

/-- C3. For a trie whose index region (`nodeCount*8` bytes) lies inside the region, a start
node `v4offset` that is not negative and an address that has the bytes for `bitCount` bits
(4 bytes for 32 bits, 16 bytes for 128): the node that the loop of `search` reaches is the
node of the reference walk (bits most significant first, start at `v4offset` for 32 bits and
at node 0 otherwise, big-endian 32-bit child pointer at `node*8 + bit*4` while the node is
below `nodeCount`), and `search` returns what that node decides. -/
theorem search_refines_specWalk (db : Reader) (ip : List Byte) (bitCount : Int)
    (hidx : db.nodeCount * 8 ≤ (db.data.length : Int)) (hv4 : 0 ≤ db.v4offset)
    (hip : bitCount ≤ 8 * (ip.length : Int)) :
    searchLoop db ip bitCount.toNat 0 (if bitCount = 32 then db.v4offset else 0) =
      some (specWalk db.data db.nodeCount (specBits ip bitCount.toNat)
        (specStart db.v4offset bitCount)) ∧
    search db ip bitCount =
      some (if specWalk db.data db.nodeCount (specBits ip bitCount.toNat)
            (specStart db.v4offset bitCount) > db.nodeCount then
          (specWalk db.data db.nodeCount (specBits ip bitCount.toNat)
            (specStart db.v4offset bitCount), none)
        else
          (-1, some Error.ErrDataNotExists)) := by
  have hstart : (0 : Int) ≤ (if bitCount = 32 then db.v4offset else 0) := by
    split
    · exact hv4
    · exact le_refl 0
  have hloop := searchLoop_eq_specWalk db ip hidx bitCount.toNat 0
    (if bitCount = 32 then db.v4offset else 0) hstart (by omega)
  rw [← List.range_eq_range'] at hloop
  refine ⟨hloop, ?_⟩
  rw [search_unfold, hloop]
  simp only [Option.some_bind]
  exact (apply_ite some _ _ _).symm

/-- C3, at the example file: the 32-bit walk for `1.1.1.1` from `v4offset`. -/
theorem search_refines_specWalk_witness :
    search sampleReader [1, 1, 1, 1] 32 = some (3, none) ∧
    specWalk sampleRegion 2 (specBits [1, 1, 1, 1] 32) 1 = 3 := by
  have h := (search_refines_specWalk sampleReader [1, 1, 1, 1] 32 (by decide) (by decide)
    (by decide)).2
  constructor
  · rw [h]; decide
  · decide

/-! ## The IPv4 start node -/

/-- A node that is not below `nodeCount` ends the loop at once. -/
theorem searchLoop_terminal (db : Reader) (ip : List Byte) (remaining i : Nat) (node : Int)
    (h : ¬ node < db.nodeCount) : searchLoop db ip remaining i node = some node := by
  cases remaining with
  | zero => rfl
  | succ k => unfold searchLoop; rw [if_neg h]

theorem searchLoop_succ (db : Reader) (ip : List Byte) (k i : Nat) (node : Int) :
    searchLoop db ip (k + 1) i node =
      if node < db.nodeCount then
        (ip[i >>> 3]?).bind fun b =>
          (readNode db node (((b.val >>> (7 - (i &&& 7))) &&& 1 : Nat) : Int)).bind
            (searchLoop db ip k (i + 1))
      else
        some node := rfl

/-- The loop over `m + n` bits is the loop over `m` bits followed by the loop over `n`. -/
theorem searchLoop_split (db : Reader) (ip : List Byte) (n : Nat) :
    ∀ (m i : Nat) (node : Int),
      searchLoop db ip (m + n) i node =
        (searchLoop db ip m i node).bind (searchLoop db ip n (i + m)) := by
  intro m
  induction m with
  | zero =>
    intro i node
    simp [searchLoop]
  | succ k ih =>
    intro i node
    have e : k + 1 + n = (k + n) + 1 := by omega
    rw [e]
    by_cases hlt : node < db.nodeCount
    · rw [searchLoop_succ db ip (k + n), searchLoop_succ db ip k, if_pos hlt, if_pos hlt]
      cases hb : ip[i >>> 3]? with
      | none => simp
      | some b =>
        simp only [Option.some_bind]
        cases hr : readNode db node (((b.val >>> (7 - (i &&& 7))) &&& 1 : Nat) : Int) with
        | none => simp
        | some node2 =>
          simp only [Option.some_bind]
          rw [ih (i + 1) node2]
          have e2 : i + 1 + k = i + (k + 1) := by omega
          rw [e2]
    · rw [searchLoop_terminal db ip _ i node hlt, searchLoop_terminal db ip _ i node hlt]
      simp only [Option.some_bind]
      rw [searchLoop_terminal db ip _ _ node hlt]

/-- The bits of the IPv4-mapped prefix: 80 zero bits, then 16 one bits. -/
theorem v4InV6_branch :
    ∀ i, i < 96 →
      (v4InV6[i >>> 3]?).map (fun b => (b.val >>> (7 - (i &&& 7))) &&& 1) =
        some (if i ≥ 80 then 1 else 0) := by
  decide

theorem v4InV6_length : v4InV6.length = 12 := by decide

/-- On the first 96 bits of an IPv4-mapped address the loop of `search` is the loop that
`initBytes` runs to compute `v4offset`. -/
theorem searchLoop_mapped_eq_v4Walk (db : Reader) (a : List Byte) :
    ∀ (m i : Nat) (node : Int), i + m ≤ 96 →
      searchLoop db (v4InV6 ++ a) m i node = v4Walk db m i node := by
  intro m
  induction m with
  | zero => intro i node _; rfl
  | succ k ih =>
    intro i node hle
    unfold searchLoop v4Walk
    by_cases hlt : node < db.nodeCount
    · rw [if_pos hlt, if_pos hlt]
      have hi : i < 96 := by omega
      have h3 : i >>> 3 = i / 8 := by rw [Nat.shiftRight_eq_div_pow]
      have hin : i >>> 3 < v4InV6.length := by rw [h3, v4InV6_length]; omega
      have hb := v4InV6_branch i hi
      rw [List.getElem?_append_left hin]
      cases hg : v4InV6[i >>> 3]? with
      | none => rw [hg] at hb; simp at hb
      | some b =>
        rw [hg] at hb
        simp only [Option.map_some', Option.some.injEq] at hb
        simp only [Option.some_bind]
        rw [hb]
        by_cases h80 : i ≥ 80
        · rw [if_pos h80, if_pos h80]
          cases hr : readNode db node 1 with
          | none => simp [hr]
          | some node2 =>
            simp only [Nat.cast_one, hr, Option.some_bind]
            exact ih (i + 1) node2 (by omega)
        · rw [if_neg h80, if_neg h80]
          cases hr : readNode db node 0 with
          | none => simp [hr]
          | some node2 =>
            simp only [Nat.cast_zero, hr, Option.some_bind]
            exact ih (i + 1) node2 (by omega)
    · rw [if_neg hlt, if_neg hlt]

/-- Past the prefix, the loop over the mapped address reads the bits of the IPv4 address. -/
theorem searchLoop_mapped_tail (db : Reader) (a : List Byte) :
    ∀ (k j : Nat) (node : Int),
      searchLoop db (v4InV6 ++ a) k (96 + j) node = searchLoop db a k j node := by
  intro k
  induction k with
  | zero => intro j node; rfl
  | succ k ih =>
    intro j node
    unfold searchLoop
    by_cases hlt : node < db.nodeCount
    · rw [if_pos hlt, if_pos hlt]
      have h3 : (96 + j) >>> 3 = 12 + j >>> 3 := by
        rw [Nat.shiftRight_eq_div_pow, Nat.shiftRight_eq_div_pow]
        omega
      have h7 : (96 + j) &&& 7 = j &&& 7 := by
        rw [Nat.and_pow_two_sub_one_eq_mod (96 + j) 3, Nat.and_pow_two_sub_one_eq_mod j 3]
        omega
      have hidx : (v4InV6 ++ a)[(96 + j) >>> 3]? = a[j >>> 3]? := by
        rw [h3, List.getElem?_append_right (by rw [v4InV6_length]; omega), v4InV6_length]
        congr 1
        omega
      rw [hidx, h7]
      cases hb : a[j >>> 3]? with
      | none => simp
      | some b =>
        simp only [Option.some_bind]
        cases hr : readNode db node (((b.val >>> (7 - (j &&& 7))) &&& 1 : Nat) : Int) with
        | none => simp
        | some node2 =>
          simp only [Option.some_bind]
          have e : 96 + j + 1 = 96 + (j + 1) := by omega
          rw [e]
          exact ih (j + 1) node2
    · rw [if_neg hlt, if_neg hlt]

/-- The walk of `initBytes` does not read the field `v4offset`. -/
theorem v4Walk_v4offset (db : Reader) (v : Int) :
    ∀ (m i : Nat) (node : Int),
      v4Walk { db with v4offset := v } m i node = v4Walk db m i node := by
  intro m
  induction m with
  | zero => intro i node; rfl
  | succ k ih =>
    intro i node
    unfold v4Walk
    have hr : ∀ idx, readNode { db with v4offset := v } node idx = readNode db node idx :=
      fun _ => rfl
    simp only [hr]
    by_cases hlt : node < db.nodeCount
    · rw [if_pos hlt, if_pos hlt]
      congr 1
      funext node2
      exact ih (i + 1) node2
    · rw [if_neg hlt, if_neg hlt]

/-- After a successful load, `v4offset` is the result of the 96-step walk on the reader. -/
theorem initBytes_v4offset (unmarshal : List Byte → Except String MetaData)
    (body spare : List Byte) (fileSize : Int) (dm : List (String × String)) (db : Reader)
    (e : Option Error)
    (h : initBytes unmarshal body spare fileSize dm = some (some db, e)) :
    v4Walk db 96 0 0 = some db.v4offset := by
  obtain ⟨hdr, len32, metaBytes, m, node, -, -, -, -, -, -, -, -, hw, -, hdb⟩ :=
    initBytes_ok_inv unmarshal body spare fileSize dm db e h
  subst hdb
  rw [← hw]
  exact v4Walk_v4offset
    { fileSize := fileSize, nodeCount := m.NodeCount, v4offset := 0, meta := m,
      data := body.drop (4 + (len32 : Int)).toNat, spare := spare, refType := dm,
      cache := [] } node 96 0 0

/-- C4. For a reader produced by `initBytes` and an IPv4 address `a` (of 4 bytes, or of any
length), the 32-bit search from `v4offset` returns what the 128-bit search from the root
returns on the IPv4-mapped address (80 zero bits, 16 one bits, then `a`); when the prefix
walk stopped early, on a `v4offset` that is not below `nodeCount`, both return what that
value decides without reading a bit of `a`. -/
theorem search_v4offset_eq_mapped (unmarshal : List Byte → Except String MetaData)
    (body spare : List Byte) (fileSize : Int) (dm : List (String × String)) (db : Reader)
    (e : Option Error) (a : List Byte)
    (hload : initBytes unmarshal body spare fileSize dm = some (some db, e)) :
    search db a 32 = search db (v4InV6 ++ a) 128 ∧
    (¬ db.v4offset < db.nodeCount →
      search db (v4InV6 ++ a) 128 =
        some (if db.v4offset > db.nodeCount then (db.v4offset, none)
          else (-1, some Error.ErrDataNotExists))) := by
  have hw := initBytes_v4offset unmarshal body spare fileSize dm db e hload
  have h128 : searchLoop db (v4InV6 ++ a) 128 0 0 = searchLoop db a 32 0 db.v4offset := by
    have hs := searchLoop_split db (v4InV6 ++ a) 32 96 0 0
    rw [searchLoop_mapped_eq_v4Walk db a 96 0 0 (by omega), hw] at hs
    simp only [Option.some_bind] at hs
    rw [hs]
    exact searchLoop_mapped_tail db a 32 0 db.v4offset
  have heq : search db a 32 = search db (v4InV6 ++ a) 128 := by
    rw [search_unfold, search_unfold]
    have e32 : (32 : Int).toNat = 32 := rfl
    have e128 : (128 : Int).toNat = 128 := rfl
    rw [e32, e128, if_pos rfl, if_neg (by decide), h128]
  refine ⟨heq, ?_⟩
  intro hterm
  rw [← heq, search_unfold, if_pos rfl, searchLoop_terminal db a _ 0 db.v4offset hterm]
  simp only [Option.some_bind]
  exact (apply_ite some _ _ _).symm

/-- C4, at the example file: `1.1.1.1` searched with 32 bits and, mapped, with 128 bits. -/
theorem search_v4offset_eq_mapped_witness :
    search sampleReader [1, 1, 1, 1] 32 = search sampleReader (v4InV6 ++ [1, 1, 1, 1]) 128 :=
  (search_v4offset_eq_mapped sampleUnmarshal sampleFile [] 28 [] sampleReader none [1, 1, 1, 1]
    (by decide)).1

/-! ## The record resolver -/

/-- Inside the region, `Uint16` of a 2-byte slice is the big-endian value of the reference. -/
theorem Uint16_slice (region : List Byte) (off : Nat) (h : off + 2 ≤ region.length) :
    Uint16 ((region.drop off).take 2) = some (specBE16 region off) := by
  have g : ∀ k, k < 2 → ((region.drop off).take 2)[k]? = some (region.getD (off + k) 0) := by
    intro k hk
    rw [List.getElem?_take_of_lt hk, List.getElem?_drop]
    exact getElem?_eq_some_getD region (off + k) 0 (by omega)
  unfold Uint16 specBE16
  rw [g 0 (by omega), g 1 (by omega)]
  simp only [Option.bind_eq_bind, Option.some_bind, Option.some.injEq, Nat.add_zero]
  have hd : (region.getD (off + 1) 0).val < 2 ^ 8 := Fin.isLt _
  rw [Nat.shiftLeft_eq, Nat.lor_comm, Nat.mul_comm, ← Nat.mul_add_lt_is_or hd]

/-- The resolver on a record offset `r` whose length prefix lies inside the region, for a
reader whose `fileSize` is at least the region length. -/
theorem resolve_of_prefix_in_region (db : Reader) (node : Int) (r : Nat)
    (hfs : (db.data.length : Int) ≤ db.fileSize)
    (hr : (r : Int) = node - db.nodeCount + db.nodeCount * 8)
    (h2 : r + 2 ≤ db.data.length) :
    resolve db node =
      if r + 2 + specBE16 db.data r > db.data.length then
        some (none, some Error.ErrDatabase)
      else
        some (some ((db.data.drop (r + 2)).take (specBE16 db.data r)), none) := by
  unfold resolve
  simp only [← hr]
  rw [if_neg (by omega),
    sliceExpr_append_of_le db.data db.spare _ _ (by omega) (by omega) (by omega)]
  have e1 : ((r : Int)).toNat = r := by omega
  have e2 : ((r : Int) + 2 - (r : Int)).toNat = 2 := by omega
  rw [e1, e2]
  simp only [Option.some_bind]
  rw [Uint16_slice db.data r h2]
  simp only [Option.some_bind]
  by_cases hc : r + 2 + specBE16 db.data r > db.data.length
  · rw [if_pos hc, if_pos (by omega)]
  · rw [if_neg hc, if_neg (by omega),
      sliceExpr_append_of_le db.data db.spare _ _ (by omega) (by omega) (by omega)]
    have e3 : ((r : Int) + 2).toNat = r + 2 := by omega
    have e4 : ((r : Int) + 2 + (specBE16 db.data r : Int) - ((r : Int) + 2)).toNat
        = specBE16 db.data r := by omega
    rw [e3, e4]
    rfl

/-- C5. On a loaded snapshot, for a node whose record offset
`resolved = node - nodeCount + nodeCount*8` is a number `r >= 0` with `r + 2` within the region
length: with `size` the 2-byte big-endian value at `[r, r+2)`, `resolve` returns `ErrDatabase`
exactly when `r + 2 + size` exceeds the region length, and otherwise returns the region
bytes `[r+2, r+2+size)`, which are `size` bytes lying inside the region. -/
theorem resolve_length_prefixed (unmarshal : List Byte → Except String MetaData)
    (buf spare : List Byte) (dm : List (String × String)) (db : Reader) (node : Int) (r : Nat)
    (hload : newReaderFromBytes unmarshal buf spare dm = some (some db, none))
    (hr : (r : Int) = node - db.nodeCount + db.nodeCount * 8)
    (h2 : r + 2 ≤ db.data.length) :
    (resolve db node = some (none, some Error.ErrDatabase) ↔
      r + 2 + specBE16 db.data r > db.data.length) ∧
    (r + 2 + specBE16 db.data r ≤ db.data.length →
      resolve db node = some (some ((db.data.drop (r + 2)).take (specBE16 db.data r)), none) ∧
      ((db.data.drop (r + 2)).take (specBE16 db.data r)).length = specBE16 db.data r ∧
      ∀ k, k < specBE16 db.data r →
        ((db.data.drop (r + 2)).take (specBE16 db.data r))[k]? = db.data[r + 2 + k]? ∧
        r + 2 + k < db.data.length) := by
  obtain ⟨len32, -, -, -, -, -, hfs, hsz, hdata, -⟩ :=
    newReaderFromBytes_ok_inv unmarshal buf spare dm db none hload
  have hle : (db.data.length : Int) ≤ db.fileSize := by
    rw [hfs, hdata, List.length_drop]
    omega
  have hmain := resolve_of_prefix_in_region db node r hle hr h2
  constructor
  · rw [hmain]
    by_cases hc : r + 2 + specBE16 db.data r > db.data.length
    · simp [hc]
    · simp [hc]
  · intro hc
    rw [hmain, if_neg (by omega)]
    refine ⟨rfl, ?_, ?_⟩
    · rw [List.length_take, List.length_drop]
      omega
    · intro k hk
      rw [List.getElem?_take_of_lt hk, List.getElem?_drop]
      exact ⟨rfl, by omega⟩

/-- C5, at the example file: node 3 resolves to offset 17, size 3, payload `x<tab>y`. -/
theorem resolve_length_prefixed_witness :
    resolve sampleReader 3 = some (some [120, 9, 121], none) :=
  ((resolve_length_prefixed sampleUnmarshal sampleFile [] [] sampleReader 3 17 (by decide)
    (by decide) (by decide)).2 (by decide)).1

/-! ## The loader, evaluated forwards -/

/-- The loader on a buffer that holds its metadata block: the length prefix is the
big-endian value of the first four bytes, and what is left are the parser, the two checks
and the prefix walk. -/
theorem initBytes_eval (unmarshal : List Byte → Except String MetaData)
    (body spare : List Byte) (dm : List (String × String))
    (hL : 4 + specBE32 body 0 ≤ body.length) :
    newReaderFromBytes unmarshal body spare dm =
      match unmarshal ((body.drop 4).take (specBE32 body 0)) with
      | Except.error e => some (none, some (Error.jsonError e))
      | Except.ok m =>
        if m.Languages.length = 0 ∨ m.Fields.length = 0 then
          some (none, some Error.ErrMetaData)
        else if (body.length : Int) ≠ 4 + (specBE32 body 0 : Int) + m.TotalSize then
          some (none, some Error.ErrFileSize)
        else
          (v4Walk { fileSize := body.length, nodeCount := m.NodeCount, v4offset := 0, meta := m,
                    data := body.drop (4 + specBE32 body 0), spare := spare, refType := dm,
                    cache := [] } 96 0 0).bind fun node =>
            some (some { fileSize := body.length, nodeCount := m.NodeCount, v4offset := node,
                         meta := m, data := body.drop (4 + specBE32 body 0), spare := spare,
                         refType := dm, cache := [] }, none) := by
  unfold newReaderFromBytes
  rw [if_neg (by omega)]
  unfold initBytes
  rw [sliceExpr_append_of_le body spare 0 4 (by omega) (by omega) (by omega)]
  have e0 : ((4 : Int) - 0).toNat = 4 := rfl
  simp only [Int.toNat_zero, List.drop_zero, Option.some_bind, e0]
  have hu := Uint32_slice body 0 (by omega)
  rw [List.drop_zero] at hu
  rw [hu]
  simp only [Option.some_bind]
  rw [if_neg (by omega),
    sliceExpr_append_of_le body spare 4 _ (by omega) (by omega) (by omega)]
  have e1 : ((4 : Int)).toNat = 4 := rfl
  have e2 : ((4 : Int) + (specBE32 body 0 : Int) - 4).toNat = specBE32 body 0 := by omega
  have e3 : ((4 : Int) + (specBE32 body 0 : Int)).toNat = 4 + specBE32 body 0 := by omega
  simp only [Option.some_bind, e1, e2, e3]
  cases unmarshal ((body.drop 4).take (specBE32 body 0)) with
  | error e => rfl
  | ok m =>
    simp only
    by_cases h1 : m.Languages.length = 0 ∨ m.Fields.length = 0
    · rw [if_pos h1, if_pos h1]
    · rw [if_neg h1, if_neg h1]
      by_cases h2 : (body.length : Int) ≠ 4 + (specBE32 body 0 : Int) + m.TotalSize
      · rw [if_pos h2, if_pos h2]
      · rw [if_neg h2, if_neg h2, if_pos (by omega), if_pos trivial]

/-- The prefix walk does not panic when the index region lies inside the region. -/
theorem v4Walk_in_index (db : Reader) (hidx : db.nodeCount * 8 ≤ (db.data.length : Int)) :
    ∀ (m i : Nat) (node : Int), 0 ≤ node →
      ∃ node2, v4Walk db m i node = some node2 ∧ 0 ≤ node2 := by
  intro m
  induction m with
  | zero => intro i node h0; exact ⟨node, rfl, h0⟩
  | succ k ih =>
    intro i node h0
    unfold v4Walk
    by_cases hlt : node < db.nodeCount
    · rw [if_pos hlt]
      have r0 := readNode_in_index db node 0 h0 hlt (by omega) hidx
      have r1 := readNode_in_index db node 1 h0 hlt (by omega) hidx
      simp only [Nat.cast_zero, Nat.cast_one] at r0 r1
      by_cases h80 : i ≥ 80
      · rw [if_pos h80, r1]
        exact ih (i + 1) _ (specBE32_nonneg _ _)
      · rw [if_neg h80, r0]
        exact ih (i + 1) _ (specBE32_nonneg _ _)
    · rw [if_neg hlt]
      exact ⟨node, rfl, h0⟩

/-! ## The guard of the resolver -/

/-- C6, the code at the failing input.  `corruptFile` loads; the search for `1.1.1.1` ends
on the pointer 8, whose record offset 22 is the region length, so `resolved + 2` exceeds
it; 22 is below `fileSize = 28`, the guard `resolved >= fileSize` lets it pass, and the
slice expression for the length prefix panics: `resolve`, `find0` and `find1` do not
return `ErrDatabase`. -/
theorem resolve_guard_passes_region_end :
    newReaderFromBytes sampleUnmarshal corruptFile [] [] = some (some corruptReader, none) ∧
    search corruptReader [1, 1, 1, 1] 32 = some (8, none) ∧
    (8 - corruptReader.nodeCount + corruptReader.nodeCount * 8 + 2
      > (corruptReader.data.length : Int)) ∧
    (8 - corruptReader.nodeCount + corruptReader.nodeCount * 8 < corruptReader.fileSize) ∧
    resolve corruptReader 8 = none ∧
    find0 sampleParseIP corruptReader "1.1.1.1" = none ∧
    find1 sampleParseIP corruptReader "1.1.1.1" "CN" = none := by
  decide

/-! ## The checks of the loader -/

/-- C7, counterexample.  `truncFile` has `4 + L + total_size` bytes and its metadata has a
language and a field, but it declares one trie node and holds none: the prefix walk reads
`data[0:4]` of an empty region and the load panics, it does not return a reader. -/
theorem load_size_ok_not_loaded :
    (truncFile.length : Int) = 4 + (specBE32 truncFile 0 : Int) + truncMeta.TotalSize ∧
    truncUnmarshal ((truncFile.drop 4).take (specBE32 truncFile 0)) = Except.ok truncMeta ∧
    truncMeta.Languages ≠ [] ∧ truncMeta.Fields ≠ [] ∧
    newReaderFromBytes truncUnmarshal truncFile [] [] = none := by
  decide

/-- C7, amended.  For a buffer that holds its metadata block (`4 + L` bytes, `L` the
big-endian length prefix) parsed to `m` with languages and fields: the load returns
`ErrFileSize` and no reader exactly when the buffer length differs from
`4 + L + total_size`; when the length is equal and the index region fits in the region
(`node_count*8 <= total_size`) the load returns a reader; and every reader it returns has
the buffer bytes from offset `4 + L` as its region, `total_size` bytes. -/
theorem load_size_check (unmarshal : List Byte → Except String MetaData)
    (body spare : List Byte) (dm : List (String × String)) (m : MetaData)
    (hL : 4 + specBE32 body 0 ≤ body.length)
    (hm : unmarshal ((body.drop 4).take (specBE32 body 0)) = Except.ok m)
    (hl : m.Languages ≠ []) (hf : m.Fields ≠ []) :
    (newReaderFromBytes unmarshal body spare dm = some (none, some Error.ErrFileSize) ↔
      (body.length : Int) ≠ 4 + (specBE32 body 0 : Int) + m.TotalSize) ∧
    ((body.length : Int) = 4 + (specBE32 body 0 : Int) + m.TotalSize →
      m.NodeCount * 8 ≤ m.TotalSize →
      ∃ db, newReaderFromBytes unmarshal body spare dm = some (some db, none)) ∧
    (∀ db e, newReaderFromBytes unmarshal body spare dm = some (some db, e) →
      e = none ∧ (body.length : Int) = 4 + (specBE32 body 0 : Int) + m.TotalSize ∧
      db.meta = m ∧ db.data = body.drop (4 + specBE32 body 0) ∧
      (db.data.length : Int) = m.TotalSize) := by
  have hev := initBytes_eval unmarshal body spare dm hL
  rw [hm] at hev
  simp only at hev
  have hne : ¬ (m.Languages.length = 0 ∨ m.Fields.length = 0) := by
    intro h
    rcases h with h | h
    · exact hl (List.length_eq_zero.1 h)
    · exact hf (List.length_eq_zero.1 h)
  rw [if_neg hne] at hev
  refine ⟨?_, ?_, ?_⟩
  · rw [hev]
    by_cases hsz : (body.length : Int) ≠ 4 + (specBE32 body 0 : Int) + m.TotalSize
    · rw [if_pos hsz]
      exact ⟨fun _ => hsz, fun _ => rfl⟩
    · rw [if_neg hsz]
      constructor
      · intro h
        obtain ⟨node, -, h2⟩ := Option.bind_eq_some.1 h
        simp at h2
      · intro h
        exact absurd h hsz
  · intro hsz hidx
    rw [hev, if_neg (by omega)]
    obtain ⟨node, hw, -⟩ := v4Walk_in_index
      { fileSize := body.length, nodeCount := m.NodeCount, v4offset := 0, meta := m,
        data := body.drop (4 + specBE32 body 0), spare := spare, refType := dm,
        cache := [] }
      (by simp only [List.length_drop]; omega) 96 0 0 (le_refl 0)
    rw [hw]
    exact ⟨_, rfl⟩
  · intro db e h
    rw [hev] at h
    by_cases hsz : (body.length : Int) ≠ 4 + (specBE32 body 0 : Int) + m.TotalSize
    · rw [if_pos hsz] at h
      simp at h
    · rw [if_neg hsz] at h
      obtain ⟨node, -, h2⟩ := Option.bind_eq_some.1 h
      simp only [Option.some.injEq, Prod.mk.injEq] at h2
      obtain ⟨hdb, he⟩ := h2
      subst hdb
      refine ⟨he.symm, by omega, rfl, rfl, ?_⟩
      simp only [List.length_drop]
      omega

/-- C7 amended, at the example file. -/
theorem load_size_check_witness :
    ∃ db, newReaderFromBytes sampleUnmarshal sampleFile [] [] = some (some db, none) :=
  (load_size_check sampleUnmarshal sampleFile [] [] sampleMeta (by decide) (by decide)
    (by decide) (by decide)).2.1 (by decide) (by decide)

/-- The two size checks that come before the metadata is parsed. -/
theorem newReaderFromBytes_short (unmarshal : List Byte → Except String MetaData)
    (body spare : List Byte) (dm : List (String × String))
    (h : body.length < 4 ∨ (4 ≤ body.length ∧ body.length < 4 + specBE32 body 0)) :
    newReaderFromBytes unmarshal body spare dm = some (none, some Error.ErrFileSize) := by
  unfold newReaderFromBytes
  rcases h with h | ⟨h4, hlt⟩
  · rw [if_pos h]
  · rw [if_neg (by omega)]
    unfold initBytes
    rw [sliceExpr_append_of_le body spare 0 4 (by omega) (by omega) (by omega)]
    have e0 : ((4 : Int) - 0).toNat = 4 := rfl
    simp only [Int.toNat_zero, List.drop_zero, Option.some_bind, e0]
    have hu := Uint32_slice body 0 (by omega)
    rw [List.drop_zero] at hu
    rw [hu]
    simp only [Option.some_bind]
    rw [if_pos (by omega)]

/-- C8. A buffer shorter than 4 bytes, and a buffer of at least 4 bytes that is shorter than
`4 + L` (`L` the big-endian value of its first 4 bytes), makes `newReaderFromBytes` return
`ErrFileSize` and no reader.  This holds for every spare capacity behind the buffer, the
empty one included, where any access at or beyond the end of the buffer is a panic, and
for every parser: no byte outside the buffer and no metadata byte decides the result. -/
theorem load_short_buffer (unmarshal : List Byte → Except String MetaData)
    (body spare : List Byte) (dm : List (String × String))
    (h : body.length < 4 ∨ (4 ≤ body.length ∧ body.length < 4 + specBE32 body 0)) :
    newReaderFromBytes unmarshal body spare dm = some (none, some Error.ErrFileSize) := by
  unfold newReaderFromBytes
  rcases h with h | ⟨h4, hlt⟩
  · rw [if_pos h]
  · rw [if_neg (by omega)]
    unfold initBytes
    rw [sliceExpr_append_of_le body spare 0 4 (by omega) (by omega) (by omega)]
    have e0 : ((4 : Int) - 0).toNat = 4 := rfl
    simp only [Int.toNat_zero, List.drop_zero, Option.some_bind, e0]
    have hu := Uint32_slice body 0 (by omega)
    rw [List.drop_zero] at hu
    rw [hu]
    simp only [Option.some_bind]
    rw [if_pos (by omega)]

/-- C8, at two buffers: three bytes, and five bytes whose prefix announces 9. -/
theorem load_short_buffer_witness :
    newReaderFromBytes sampleUnmarshal [0, 0, 2] [] [] = some (none, some Error.ErrFileSize) ∧
    newReaderFromBytes sampleUnmarshal [0, 0, 0, 9, 123] [] [] =
      some (none, some Error.ErrFileSize) :=
  ⟨load_short_buffer sampleUnmarshal [0, 0, 2] [] [] (Or.inl (by decide)),
   load_short_buffer sampleUnmarshal [0, 0, 0, 9, 123] [] [] (Or.inr (by decide))⟩

/-- C9. When the buffer holds its metadata block and the block parses to a descriptor with
no language or with no field, the load returns `ErrMetaData` and no reader, whatever the
declared `total_size` and the buffer length. -/
theorem load_empty_schema (unmarshal : List Byte → Except String MetaData)
    (body spare : List Byte) (dm : List (String × String)) (m : MetaData)
    (hL : 4 + specBE32 body 0 ≤ body.length)
    (hm : unmarshal ((body.drop 4).take (specBE32 body 0)) = Except.ok m)
    (he : m.Languages = [] ∨ m.Fields = []) :
    newReaderFromBytes unmarshal body spare dm = some (none, some Error.ErrMetaData) := by
  rw [initBytes_eval unmarshal body spare dm hL, hm]
  simp only
  rw [if_pos]
  rcases he with he | he
  · left; rw [he]; rfl
  · right; rw [he]; rfl

/-- C9, at a 6-byte file whose descriptor has no language and declares 22 region bytes. -/
theorem load_empty_schema_witness :
    newReaderFromBytes noLanguageUnmarshal truncFile [] [] =
      some (none, some Error.ErrMetaData) :=
  load_empty_schema noLanguageUnmarshal truncFile [] [] { sampleMeta with Languages := [] }
    (by decide) (by decide) (Or.inl rfl)

/-- C10, counterexample.  The 5-byte file with prefix 1 and the metadata byte `123`, which
the parser rejects: the load returns the error of the parser, not `ErrMetaData`. -/
theorem load_malformed_not_ErrMetaData :
    4 + specBE32 [0, 0, 0, 1, 123] 0 ≤ ([0, 0, 0, 1, 123] : List Byte).length ∧
    sampleUnmarshal ((([0, 0, 0, 1, 123] : List Byte).drop 4).take
      (specBE32 [0, 0, 0, 1, 123] 0)) = Except.error "unexpected end of JSON input" ∧
    newReaderFromBytes sampleUnmarshal [0, 0, 0, 1, 123] [] []
      ≠ some (none, some Error.ErrMetaData) := by
  decide

/-- C10, amended.  When the buffer holds its metadata block and the parser rejects it with
an error `e`, the load returns that error of the parser unchanged, which is not
`ErrMetaData`, and no reader. -/
theorem load_malformed_metadata (unmarshal : List Byte → Except String MetaData)
    (body spare : List Byte) (dm : List (String × String)) (e : String)
    (hL : 4 + specBE32 body 0 ≤ body.length)
    (hm : unmarshal ((body.drop 4).take (specBE32 body 0)) = Except.error e) :
    newReaderFromBytes unmarshal body spare dm = some (none, some (Error.jsonError e)) ∧
    Error.jsonError e ≠ Error.ErrMetaData := by
  rw [initBytes_eval unmarshal body spare dm hL, hm]
  exact ⟨rfl, fun h => Error.noConfusion h⟩

/-- C10 amended, at the 5-byte file. -/
theorem load_malformed_metadata_witness :
    newReaderFromBytes sampleUnmarshal [0, 0, 0, 1, 123] [] [] =
      some (none, some (Error.jsonError "unexpected end of JSON input")) :=
  (load_malformed_metadata sampleUnmarshal [0, 0, 0, 1, 123] [] []
    "unexpected end of JSON input" (by decide) (by decide)).1

/-! ## Language and address family checks -/

/-- C11. For a language code that is no key of the metadata languages table, `find1` and
`Find` return `ErrNoSupportLanguage` and no values, for every snapshot and every address
string. -/
theorem find1_unknown_language (parseIP : String → List Byte) (db : Reader)
    (addr language : String) (h : ∀ off, (language, off) ∉ db.meta.Languages) :
    find1 parseIP db addr language = some (none, some Error.ErrNoSupportLanguage) ∧
    Find parseIP db addr language = some (none, some Error.ErrNoSupportLanguage) := by
  have hl : db.meta.Languages.lookup language = none := by
    rw [List.lookup_eq_none_iff]
    intro p hp
    by_contra hk
    have hk2 : language = p.1 := by simpa using hk
    apply h p.2
    rw [hk2]
    exact hp
  have h1 : find1 parseIP db addr language = some (none, some Error.ErrNoSupportLanguage) := by
    unfold find1
    rw [hl]
  exact ⟨h1, h1⟩

/-- C11, at the example file and the language `XX`. -/
theorem find1_unknown_language_witness :
    Find sampleParseIP sampleReader "8.8.8.8" "XX" =
      some (none, some Error.ErrNoSupportLanguage) :=
  (find1_unknown_language sampleParseIP sampleReader "8.8.8.8" "XX"
    (by intro off h; simp [sampleReader, sampleMeta] at h)).2

theorem and_two_eq_two_iff (n : Nat) : n &&& 2 = 2 ↔ n.testBit 1 = true := by
  constructor
  · intro h
    have h2 : (n &&& 2).testBit 1 = true := by rw [h]; decide
    rw [Nat.testBit_and] at h2
    simp only [Bool.and_eq_true] at h2
    exact h2.1
  · intro h
    apply Nat.eq_of_testBit_eq
    intro i
    rw [Nat.testBit_and]
    have h2 : (2 : Nat).testBit i = decide (1 = i) := Nat.testBit_two_pow (n := 1) (m := i)
    rw [h2]
    by_cases hi : 1 = i
    · subst hi
      simp [h]
    · simp [hi]

theorem IsIPv4Support_iff (db : Reader) :
    IsIPv4Support db = true ↔ db.meta.IPVersion.testBit 0 = true := by
  unfold IsIPv4Support IPv4
  rw [Nat.and_one_is_mod, Nat.testBit_zero]
  simp

theorem IsIPv6Support_iff (db : Reader) :
    IsIPv6Support db = true ↔ db.meta.IPVersion.testBit 1 = true := by
  unfold IsIPv6Support IPv6
  rw [← and_two_eq_two_iff]
  simp

/-- C13. `IsIPv4Support` is bit 0 of `ip_version` and `IsIPv6Support` is bit 1.  With
bit 1 clear, a supported language and an address that `net.ParseIP` reads as an IPv6
address (`To4` gives `nil`, `To16` does not), `Find` returns `ErrNoSupportIPv6`; with bit 0
clear and an address that is an IPv4 address (`To4` does not give `nil`) it returns
`ErrNoSupportIPv4`.  Both hold for every trie, also one on which a search would panic: the
trie is not searched. -/
theorem find_family_not_supported (parseIP : String → List Byte) (db : Reader)
    (addr language : String) (off : Int) (ip : List Byte)
    (hlang : db.meta.Languages.lookup language = some off) :
    (IsIPv4Support db = true ↔ db.meta.IPVersion.testBit 0 = true) ∧
    (IsIPv6Support db = true ↔ db.meta.IPVersion.testBit 1 = true) ∧
    (db.meta.IPVersion.testBit 1 = false → To4 (parseIP addr) = none →
      To16 (parseIP addr) = some ip →
      Find parseIP db addr language = some (none, some Error.ErrNoSupportIPv6)) ∧
    (db.meta.IPVersion.testBit 0 = false → To4 (parseIP addr) = some ip →
      Find parseIP db addr language = some (none, some Error.ErrNoSupportIPv4)) := by
  refine ⟨IsIPv4Support_iff db, IsIPv6Support_iff db, ?_, ?_⟩
  · intro hbit h4 h16
    have hs : ¬ IsIPv6Support db = true := by
      rw [IsIPv6Support_iff, hbit]
      decide
    unfold Find find1
    rw [hlang]
    unfold find0
    simp [h4, h16, hs]
  · intro hbit h4
    have hs : ¬ IsIPv4Support db = true := by
      rw [IsIPv4Support_iff, hbit]
      decide
    unfold Find find1
    rw [hlang]
    unfold find0
    simp [h4, hs]

/-- C13, at the example reader with `ip_version = 1`: the address `::` is refused. -/
theorem find_family_not_supported_witness :
    Find sampleParseIP { sampleReader with meta := { sampleMeta with IPVersion := 1 } } "::" "CN"
      = some (none, some Error.ErrNoSupportIPv6) :=
  (find_family_not_supported sampleParseIP
    { sampleReader with meta := { sampleMeta with IPVersion := 1 } } "::" "CN" 0
    (List.replicate 16 0) (by decide)).2.2.1 (by decide) (by decide) (by decide)

/-! ## The map form -/

theorem mapLoad_mapStore_self {β : Type} (m : List (String × β)) (k : String) (v : β) :
    mapLoad (mapStore m k v) k = some v := by
  unfold mapLoad mapStore
  exact List.lookup_cons_self

theorem mapStore_fresh {β : Type} (m : List (String × β)) (k : String) (v : β)
    (h : ∀ kv ∈ m, kv.1 ≠ k) : mapStore m k v = (k, v) :: m := by
  unfold mapStore
  congr 1
  rw [List.filter_eq_self]
  intro kv hkv
  simpa using h kv hkv

/-- In an association list with distinct keys, an entry is what the key reads. -/
theorem mapLoad_of_mem {β : Type} :
    ∀ (m : List (String × β)) (k : String) (v : β), (m.map Prod.fst).Nodup → (k, v) ∈ m →
      mapLoad m k = some v := by
  intro m
  induction m with
  | nil => intro k v _ h; simp at h
  | cons p rest ih =>
    intro k v hnd hmem
    rw [List.map_cons, List.nodup_cons] at hnd
    unfold mapLoad
    rw [List.lookup_cons]
    rcases List.mem_cons.1 hmem with h | h
    · subst h
      simp
    · have hne : ¬ k = p.1 := by
        intro hk
        apply hnd.1
        rw [← hk]
        exact List.mem_map.2 ⟨(k, v), h, rfl⟩
      have hb : (k == p.1) = false := by simpa using hne
      rw [hb]
      exact ih k v hnd.2 h

/-- With distinct field names the loop of `FindMap` pairs the names with the values. -/
theorem fillInfo_nodup (fields : List String) (hnd : fields.Nodup) :
    ∀ (rest : List (List Byte)) (k : Nat) (info : FieldMap),
      k + rest.length ≤ fields.length → (∀ kv ∈ info, kv.1 ∉ fields.drop k) →
      fillInfo fields rest k info = some ((List.zip (fields.drop k) rest).reverse ++ info) := by
  intro rest
  induction rest with
  | nil => intro k info _ _; simp [fillInfo]
  | cons v rest ih =>
    intro k info hlen hfresh
    have hk : k < fields.length := by
      rw [List.length_cons] at hlen
      omega
    have hdrop : fields.drop k = fields[k] :: fields.drop (k + 1) := List.drop_eq_getElem_cons hk
    have hnd2 : (fields[k] :: fields.drop (k + 1)).Nodup := by
      rw [← hdrop]
      exact List.Nodup.sublist (List.drop_sublist k fields) hnd
    rw [List.nodup_cons] at hnd2
    unfold fillInfo
    rw [List.getElem?_eq_getElem hk]
    simp only [Option.some_bind]
    have hfr : ∀ kv ∈ info, kv.1 ≠ fields[k] := by
      intro kv hkv heq
      apply hfresh kv hkv
      rw [hdrop, heq]
      exact List.mem_cons_self _ _
    rw [mapStore_fresh info fields[k] v hfr, ih (k + 1) ((fields[k], v) :: info)
      (by rw [List.length_cons] at hlen; omega)
      (by
        intro kv hkv
        rcases List.mem_cons.1 hkv with h | h
        · rw [h]; exact hnd2.1
        · intro hmem
          apply hfresh kv h
          rw [hdrop]
          exact List.mem_cons_of_mem _ hmem)]
    rw [hdrop, List.zip_cons_cons, List.reverse_cons, List.append_assoc]
    rfl

/-- A successful `find1` has parsed the address. -/
theorem parseIP_ne_nil_of_find1 (parseIP : String → List Byte) (db : Reader)
    (addr language : String) (v : List (List Byte))
    (h : find1 parseIP db addr language = some (some v, none)) : parseIP addr ≠ [] := by
  intro hnil
  unfold find1 at h
  cases hl : db.meta.Languages.lookup language with
  | none => simp [hl] at h
  | some off =>
    have h0 : find0 parseIP db addr = some (none, some Error.ErrIPFormat) := by
      unfold find0
      rw [hnil]
      rfl
    simp [hl, h0] at h

/-- A successful `find1` returns as many values as there are fields. -/
theorem find1_length (parseIP : String → List Byte) (db : Reader)
    (addr language : String) (v : List (List Byte))
    (h : find1 parseIP db addr language = some (some v, none)) :
    v.length = db.meta.Fields.length := by
  unfold find1 at h
  cases hl : db.meta.Languages.lookup language with
  | none => simp [hl] at h
  | some off =>
    simp only [hl] at h
    obtain ⟨r, hr0, h2⟩ := Option.bind_eq_some.1 h
    cases hr : r.2 with
    | some err => simp [hr] at h2
    | none =>
      simp only [hr] at h2
      have htok := find0_tokens_length parseIP db addr r.1 r.2 hr0
      split at h2
      · simp at h2
      · obtain ⟨vals, hs, h3⟩ := Option.bind_eq_some.1 h2
        simp only [Option.some.injEq, Prod.mk.injEq, and_true] at h3
        subst h3
        have hlen := sliceExpr_length _ _ _ _ hs
        obtain ⟨⟨hb0, hb1, hb2⟩, -⟩ := (sliceExpr_eq_some_iff _ _ _ _).1 hs
        unfold addInt lenInt maxInt at hlen hb1 hb2
        omega

/-- C14. For a snapshot with pairwise distinct field names and an address and language on
which `Find` succeeds with the values `v`: `reader.FindMap` on an empty cache, and
`City.FindMap` on every city handle of that snapshot, succeed with one map `m`; `m` has
`len(fields)` entries, its keys are distinct and are the declared field names, and it maps
`fields[i]` to `v[i]` for every index `i`. -/
theorem findMap_pairs_fields (parseIP : String → List Byte) (db : Reader)
    (addr language : String) (v : List (List Byte)) (cityCache : List (String × CityInfo))
    (hnd : db.meta.Fields.Nodup)
    (hfind : Find parseIP db addr language = some (some v, none))
    (hcache : db.cache = []) :
    ∃ m : FieldMap,
      (FindMap parseIP db addr language).map Prod.fst = some (some m, none) ∧
      City.FindMap parseIP { reader := db, cache := cityCache } addr language
        = some (some m, none) ∧
      m.length = db.meta.Fields.length ∧
      v.length = db.meta.Fields.length ∧
      (m.map Prod.fst).Nodup ∧
      (∀ k, k ∈ m.map Prod.fst ↔ k ∈ db.meta.Fields) ∧
      (∀ (i : Nat) (name : String) (val : List Byte),
        db.meta.Fields[i]? = some name → v[i]? = some val → mapLoad m name = some val) := by
  have hf1 : find1 parseIP db addr language = some (some v, none) := hfind
  have hlen := find1_length parseIP db addr language v hf1
  have hfill : fillInfo db.meta.Fields v 0 [] = some ((List.zip db.meta.Fields v).reverse) := by
    have h := fillInfo_nodup db.meta.Fields hnd v 0 [] (by omega) (by simp)
    simpa using h
  have hkeys : ((List.zip db.meta.Fields v).reverse).map Prod.fst = db.meta.Fields.reverse := by
    rw [List.map_reverse, List.map_fst_zip _ _ (by omega)]
  refine ⟨(List.zip db.meta.Fields v).reverse, ?_, ?_, ?_, hlen, ?_, ?_, ?_⟩
  · unfold FindMap
    rw [hcache]
    simp [mapLoad, hf1, hfill]
  · unfold City.FindMap
    have hv : validateIP parseIP addr = none := by
      unfold validateIP
      rw [if_neg (parseIP_ne_nil_of_find1 parseIP db addr language v hf1)]
    simp [hv, hf1, hfill]
  · rw [List.length_reverse, List.length_zip]
    omega
  · rw [hkeys]
    exact List.nodup_reverse.2 hnd
  · intro k
    rw [hkeys]
    exact List.mem_reverse
  · intro i name val hn hval
    apply mapLoad_of_mem
    · rw [hkeys]
      exact List.nodup_reverse.2 hnd
    · rw [List.mem_reverse]
      have hz : (List.zip db.meta.Fields v)[i]? = some (name, val) :=
        List.getElem?_zip_eq_some.2 ⟨hn, hval⟩
      exact List.getElem?_mem hz

/-- C14, at the example file. -/
theorem findMap_pairs_fields_witness :
    ∃ m : FieldMap,
      (FindMap sampleParseIP sampleReader "1.1.1.1" "CN").map Prod.fst = some (some m, none) ∧
      mapLoad m "country_name" = some [120] ∧ mapLoad m "city_name" = some [121] := by
  obtain ⟨m, h1, -, -, -, -, -, h7⟩ := findMap_pairs_fields sampleParseIP sampleReader
    "1.1.1.1" "CN" [[120], [121]] [] (by decide) (by decide) (by decide)
  exact ⟨m, h1, h7 0 "country_name" [120] (by decide) (by decide),
    h7 1 "city_name" [121] (by decide) (by decide)⟩

/-! ## The lookup cache of the reader -/

/-- C15. Whatever the cache holds, a call of `reader.FindMap` that returns the pair `r` and
leaves the reader `db1` is repeated by the next call with the same arguments: that call
returns `r` again and leaves `db1`.  When the first call succeeds, the map it returns is
then the cache entry of the lookup; when it fails, the reader and its cache are as they
were before the call. -/
theorem findMap_twice (parseIP : String → List Byte) (db db1 : Reader)
    (addr language : String) (r : Option FieldMap × Option Error)
    (h : FindMap parseIP db addr language = some (r, db1)) :
    FindMap parseIP db1 addr language = some (r, db1) ∧
    (r.2 = none → ∃ m, r.1 = some m ∧ mapLoad db1.cache (addr ++ language) = some m) ∧
    (r.2 ≠ none → r.1 = none ∧ db1 = db) := by
  unfold FindMap at h
  cases hc : mapLoad db.cache (addr ++ language) with
  | some val =>
    simp only [hc, Option.some.injEq, Prod.mk.injEq] at h
    obtain ⟨hr, hdb⟩ := h
    subst hdb
    subst hr
    refine ⟨?_, ?_, ?_⟩
    · unfold FindMap
      rw [hc]
    · intro _
      exact ⟨val, rfl, hc⟩
    · intro hne
      exact absurd rfl hne
  | none =>
    simp only [hc] at h
    obtain ⟨f, hf, h2⟩ := Option.bind_eq_some.1 h
    cases hf2 : f.2 with
    | some err =>
      simp only [hf2, Option.some.injEq, Prod.mk.injEq] at h2
      obtain ⟨hr, hdb⟩ := h2
      subst hdb
      subst hr
      refine ⟨?_, ?_, ?_⟩
      · unfold FindMap
        rw [hc]
        simp only [hf, Option.some_bind, hf2]
      · intro hn
        simp at hn
      · intro _
        exact ⟨rfl, rfl⟩
    | none =>
      simp only [hf2] at h2
      obtain ⟨info, -, h3⟩ := Option.bind_eq_some.1 h2
      simp only [Option.some.injEq, Prod.mk.injEq] at h3
      obtain ⟨hr, hdb⟩ := h3
      subst hdb
      subst hr
      have hload : mapLoad (mapStore db.cache (addr ++ language) info) (addr ++ language)
          = some info := mapLoad_mapStore_self _ _ _
      refine ⟨?_, ?_, ?_⟩
      · unfold FindMap
        simp only [hload]
      · intro _
        exact ⟨info, rfl, hload⟩
      · intro hne
        exact absurd rfl hne

/-- C15, at the example file: the first call stores the map, the second returns it. -/
theorem findMap_twice_witness :
    ∃ db1, FindMap sampleParseIP sampleReader "1.1.1.1" "CN"
        = some ((some [("city_name", [121]), ("country_name", [120])], none), db1) ∧
      FindMap sampleParseIP db1 "1.1.1.1" "CN"
        = some ((some [("city_name", [121]), ("country_name", [120])], none), db1) :=
  ⟨sampleReaderCached, by decide,
    (findMap_twice sampleParseIP sampleReader sampleReaderCached "1.1.1.1" "CN"
      (some [("city_name", [121]), ("country_name", [120])], none) (by decide)).1⟩

/-- C16, the code at the failing input.  On the example reader with an empty cache the
call `FindMap("1.1.1.1", "CN")` succeeds and stores its map under the key `1.1.1.1CN`.
The pair `("1.1.1.1C", "N")` is a different pair with the same key: the next call
`FindMap("1.1.1.1C", "N")` returns that map and no error, where the uncached path returns
`ErrNoSupportLanguage`. -/
theorem findMap_key_collision :
    ∃ db1 m,
      FindMap sampleParseIP sampleReader "1.1.1.1" "CN" = some ((some m, none), db1) ∧
      ("1.1.1.1", "CN") ≠ ("1.1.1.1C", "N") ∧
      "1.1.1.1" ++ "CN" = "1.1.1.1C" ++ "N" ∧
      FindMap sampleParseIP db1 "1.1.1.1C" "N" = some ((some m, none), db1) ∧
      uncachedMap sampleParseIP db1 "1.1.1.1C" "N"
        = some (none, some Error.ErrNoSupportLanguage) :=
  ⟨sampleReaderCached, [("city_name", [121]), ("country_name", [120])],
    by decide, by decide, by decide, by decide, by decide⟩

/-! ## Address validation of the city handle -/

/-- C12. For a string that `net.ParseIP` does not parse, `City.Find`, `City.FindMap` and
`City.FindInfo` return the error of `validateIP` with a `nil` result.  This holds for
every handle, whatever its reader and caches are, also a reader on which a search would
panic, and `City.FindInfo` leaves the handle, its reader and both caches as they were. -/
theorem city_invalid_address (parseIP : String → List Byte)
    (unmarshalASN : List Byte → Option (List ASNInfo))
    (unmarshalDistrict : List Byte → Option DistrictInfo) (db : City) (addr language : String)
    (h : parseIP addr = []) :
    City.Find parseIP db addr language
      = some (none, some (Error.errorfText "无效的IP地址格式: %s" addr)) ∧
    City.FindMap parseIP db addr language
      = some (none, some (Error.errorfText "无效的IP地址格式: %s" addr)) ∧
    City.FindInfo parseIP unmarshalASN unmarshalDistrict db addr language
      = some ((none, some (Error.errorfText "无效的IP地址格式: %s" addr)), db) := by
  have hv : validateIP parseIP addr = some (Error.errorfText "无效的IP地址格式: %s" addr) := by
    unfold validateIP
    rw [if_pos h]
  refine ⟨?_, ?_, ?_⟩
  · unfold City.Find
    rw [hv]
  · unfold City.FindMap
    rw [hv]
  · unfold City.FindInfo
    rw [hv]

/-- C12, at the example handle and the string `invalid.ip` of the tests. -/
theorem city_invalid_address_witness :
    City.Find sampleParseIP sampleCity "invalid.ip" "CN"
      = some (none, some (Error.errorfText "无效的IP地址格式: %s" "invalid.ip")) :=
  (city_invalid_address sampleParseIP (fun _ => none) (fun _ => none) sampleCity
    "invalid.ip" "CN" (by decide)).1

/-! ## Reload -/

/-- C17. For each of the five handles: when the fresh load of `name` fails, `newReader`
returning an error (a missing file, a size error, a read error, a metadata error),
`Reload` returns an error and the handle after the call is the handle before it, reader
and cache, so that `BuildTime`, `Fields` and every lookup are computed from the same
state as before. -/
theorem reload_failure_keeps_handle (files : Files)
    (unmarshal : List Byte → Except String MetaData) (name : String) :
    (∀ (db : City) (e : Error),
      newReader files unmarshal name cityRefType = some (none, some e) →
      ∃ err, City.Reload files unmarshal db name = some (some err, db)) ∧
    (∀ (db : District) (e : Error),
      newReader files unmarshal name districtRefType = some (none, some e) →
      ∃ err, District.Reload files unmarshal db name = some (some err, db)) ∧
    (∀ (db : IDC) (e : Error),
      newReader files unmarshal name idcRefType = some (none, some e) →
      ∃ err, IDC.Reload files unmarshal db name = some (some err, db)) ∧
    (∀ (db : Risk) (e : Error),
      newReader files unmarshal name riskRefType = some (none, some e) →
      ∃ err, Risk.Reload files unmarshal db name = some (some err, db)) ∧
    (∀ (db : BaseStation) (e : Error),
      newReader files unmarshal name baseStationRefType = some (none, some e) →
      ∃ err, BaseStation.Reload files unmarshal db name = some (some err, db)) := by
  refine ⟨?_, ?_, ?_, ?_, ?_⟩
  · intro db e h
    unfold City.Reload
    cases hs : files.stat name with
    | error msg => exact ⟨_, rfl⟩
    | ok sz => simp only [h, Option.some_bind]; exact ⟨_, rfl⟩
  · intro db e h
    unfold District.Reload
    cases hs : files.stat name with
    | error msg => exact ⟨_, rfl⟩
    | ok sz => simp only [h, Option.some_bind]; exact ⟨_, rfl⟩
  · intro db e h
    unfold IDC.Reload
    cases hs : files.stat name with
    | error msg => exact ⟨_, rfl⟩
    | ok sz => simp only [h, Option.some_bind]; exact ⟨_, rfl⟩
  · intro db e h
    unfold Risk.Reload
    simp only [h, Option.some_bind]
    exact ⟨_, rfl⟩
  · intro db e h
    unfold BaseStation.Reload
    cases hs : files.stat name with
    | error msg => exact ⟨_, rfl⟩
    | ok sz => simp only [h, Option.some_bind]; exact ⟨_, rfl⟩

/-- C17, at the example city handle and a file that does not exist. -/
theorem reload_failure_keeps_handle_witness :
    ∃ err, City.Reload sampleFiles sampleUnmarshal sampleCity "c.ipdb"
      = some (some err, sampleCity) :=
  (reload_failure_keeps_handle sampleFiles sampleUnmarshal "c.ipdb").1 sampleCity
    (Error.osError "no such file or directory") (by decide)

/-- C18, the code at the failing input.  A base-station handle on `a.ipdb` looks up
`1.1.1.1`, which caches the record with country `x`; `Reload("b.ipdb")` succeeds and the
reader holds the new region; the next `FindInfo` for `1.1.1.1` returns the cached record
with country `x`, where the new snapshot holds country `z`, the answer of a handle with an
empty cache.  The city handle, whose `Reload` calls `ClearCache`, answers `z` on the same
steps. -/
theorem baseStation_reload_keeps_cache :
    ((BaseStation.FindInfo sampleParseIP sampleBaseStation "1.1.1.1" "CN").bind fun r1 =>
      (BaseStation.Reload sampleFiles sampleUnmarshal r1.2 "b.ipdb").bind fun r2 =>
        (BaseStation.FindInfo sampleParseIP r2.2 "1.1.1.1" "CN").bind fun r3 =>
          (BaseStation.FindInfo sampleParseIP { reader := r2.2.reader, cache := [] }
              "1.1.1.1" "CN").map fun r4 =>
            (r1.1.1.map fun i => i.CountryName, r2.1, r2.2.reader.data, r2.2.cache.length,
              r3.1.1.map fun i => i.CountryName, r4.1.1.map fun i => i.CountryName))
      = some (some [120], none, sampleFile2.drop 6, 1, some [120], some [122]) ∧
    ((City.FindInfo sampleParseIP (fun _ => none) (fun _ => none) sampleCity
        "1.1.1.1" "CN").bind fun r1 =>
      (City.Reload sampleFiles sampleUnmarshal r1.2 "b.ipdb").bind fun r2 =>
        (City.FindInfo sampleParseIP (fun _ => none) (fun _ => none) r2.2
            "1.1.1.1" "CN").map fun r3 =>
          (r1.1.1.map fun i => i.CountryName, r2.1, r2.2.cache.length,
            r3.1.1.map fun i => i.CountryName))
      = some (some [120], none, 0, some [122]) := by
  decide

/-! ## What the walks read -/

theorem readNode_nonneg (db : Reader) (node index x : Int)
    (h : readNode db node index = some x) : 0 ≤ x := by
  unfold readNode at h
  simp only [Option.bind_eq_bind] at h
  obtain ⟨b, -, h2⟩ := Option.bind_eq_some.1 h
  obtain ⟨v, -, h3⟩ := Option.bind_eq_some.1 h2
  simp only [Option.some.injEq] at h3
  rw [← h3]
  exact Int.natCast_nonneg v

/-- Two readers with the same `nodeCount` that agree on the node reads below `nodeCount`
run the same prefix walk. -/
theorem v4Walk_congr (db db2 : Reader) (hnc : db2.nodeCount = db.nodeCount)
    (hread : ∀ (node : Int) (bit : Nat), 0 ≤ node → node < db.nodeCount → bit ≤ 1 →
      readNode db2 node (bit : Int) = readNode db node (bit : Int)) :
    ∀ (m i : Nat) (node : Int), 0 ≤ node → v4Walk db2 m i node = v4Walk db m i node := by
  intro m
  induction m with
  | zero => intro i node _; rfl
  | succ k ih =>
    intro i node h0
    unfold v4Walk
    rw [hnc]
    by_cases hlt : node < db.nodeCount
    · rw [if_pos hlt, if_pos hlt]
      have r0 := hread node 0 h0 hlt (by omega)
      have r1 := hread node 1 h0 hlt (by omega)
      simp only [Nat.cast_zero, Nat.cast_one] at r0 r1
      rw [r0, r1]
      cases hr : (if i ≥ 80 then readNode db node 1 else readNode db node 0) with
      | none => rfl
      | some node2 =>
        simp only [Option.some_bind]
        apply ih
        by_cases h80 : i ≥ 80
        · rw [if_pos h80] at hr
          exact readNode_nonneg db node 1 node2 hr
        · rw [if_neg h80] at hr
          exact readNode_nonneg db node 0 node2 hr
    · rw [if_neg hlt, if_neg hlt]

/-- Two readers with the same `nodeCount` that agree on the node reads below `nodeCount`
run the same search loop. -/
theorem searchLoop_congr (db db2 : Reader) (ip : List Byte)
    (hnc : db2.nodeCount = db.nodeCount)
    (hread : ∀ (node : Int) (bit : Nat), 0 ≤ node → node < db.nodeCount → bit ≤ 1 →
      readNode db2 node (bit : Int) = readNode db node (bit : Int)) :
    ∀ (m i : Nat) (node : Int), 0 ≤ node →
      searchLoop db2 ip m i node = searchLoop db ip m i node := by
  intro m
  induction m with
  | zero => intro i node _; rfl
  | succ k ih =>
    intro i node h0
    rw [searchLoop_succ, searchLoop_succ, hnc]
    by_cases hlt : node < db.nodeCount
    · rw [if_pos hlt, if_pos hlt]
      cases hb : ip[i >>> 3]? with
      | none => rfl
      | some b =>
        simp only [Option.some_bind]
        have hbit : (b.val >>> (7 - (i &&& 7))) &&& 1 ≤ 1 := by
          rw [Nat.and_one_is_mod]
          omega
        rw [hread node _ h0 hlt hbit]
        cases hr : readNode db node (((b.val >>> (7 - (i &&& 7))) &&& 1 : Nat) : Int) with
        | none => rfl
        | some node2 =>
          simp only [Option.some_bind]
          exact ih (i + 1) node2 (readNode_nonneg db node _ node2 hr)
    · rw [if_neg hlt, if_neg hlt]

theorem specBE32_take (region : List Byte) (k off : Nat) (h : off + 4 ≤ k) :
    specBE32 (region.take k) off = specBE32 region off := by
  have g : ∀ j, j < k → (region.take k).getD j 0 = region.getD j 0 := by
    intro j hj
    rw [List.getD_eq_getElem?_getD, List.getD_eq_getElem?_getD, List.getElem?_take_of_lt hj]
  unfold specBE32
  rw [g off (by omega), g (off + 1) (by omega), g (off + 2) (by omega), g (off + 3) (by omega)]

/-- A node read below `nodeCount` is the same on the reader cut down to its index region. -/
theorem readNode_indexOnly (db : Reader) (hidx : db.nodeCount * 8 ≤ (db.data.length : Int))
    (node : Int) (bit : Nat) (h0 : 0 ≤ node) (hlt : node < db.nodeCount) (hbit : bit ≤ 1) :
    readNode (indexOnly db) node (bit : Int) = readNode db node (bit : Int) := by
  have hlen : ((indexOnly db).data.length : Int) = db.nodeCount * 8 := by
    show ((db.data.take (db.nodeCount * 8).toNat).length : Int) = db.nodeCount * 8
    rw [List.length_take]
    omega
  rw [readNode_in_index db node bit h0 hlt hbit hidx,
    readNode_in_index (indexOnly db) node bit h0 hlt hbit (by rw [hlen]; exact le_refl _)]
  have e : (indexOnly db).data = db.data.take (db.nodeCount * 8).toNat := rfl
  rw [e, specBE32_take db.data _ _ (by omega)]

/-- C20. For a snapshot whose index region lies in the region (`nodeCount*8` is at most
the region length, with `0 <= nodeCount` or without), the search loop from every start node that is not negative, and `search` and the load-time
walk with them, run unchanged on the reader cut down to its index region, on which every
access outside the first `nodeCount*8` bytes is a panic, and they do not panic on an
address that has the bytes for its bits: every `readNode` they make has
`node < nodeCount` and reads inside the index region. -/
theorem reads_stay_in_index (db : Reader) (ip : List Byte) (bitCount : Int)
    (hidx : db.nodeCount * 8 ≤ (db.data.length : Int))
    (hv4 : 0 ≤ db.v4offset) (hip : bitCount ≤ 8 * (ip.length : Int)) :
    (∀ (k i : Nat) (node : Int), 0 ≤ node → i + k ≤ 8 * ip.length →
      searchLoop (indexOnly db) ip k i node = searchLoop db ip k i node ∧
      ∃ n, searchLoop db ip k i node = some n) ∧
    search (indexOnly db) ip bitCount = search db ip bitCount ∧
    (∃ r, search db ip bitCount = some r) ∧
    v4Walk (indexOnly db) 96 0 0 = v4Walk db 96 0 0 ∧
    (∃ n, v4Walk db 96 0 0 = some n) := by
  have hread := readNode_indexOnly db hidx
  refine ⟨?_, ?_, ?_, ?_, ?_⟩
  · intro k i node h0 hlen
    exact ⟨searchLoop_congr db (indexOnly db) ip rfl hread k i node h0,
      ⟨_, searchLoop_eq_specWalk db ip hidx k i node h0 hlen⟩⟩
  · rw [search_unfold, search_unfold]
    have hstart : (0 : Int) ≤ (if bitCount = 32 then db.v4offset else 0) := by
      split
      · exact hv4
      · exact le_refl 0
    have hl := searchLoop_congr db (indexOnly db) ip rfl hread bitCount.toNat 0 _ hstart
    show (searchLoop (indexOnly db) ip bitCount.toNat 0
        (if bitCount = 32 then db.v4offset else 0)).bind _ = _
    rw [hl]
    rfl
  · have hstart : (0 : Int) ≤ (if bitCount = 32 then db.v4offset else 0) := by
      split
      · exact hv4
      · exact le_refl 0
    rw [search_unfold, searchLoop_eq_specWalk db ip hidx bitCount.toNat 0 _ hstart (by omega)]
    simp only [Option.some_bind]
    exact ⟨_, (apply_ite some _ _ _).symm⟩
  · exact v4Walk_congr db (indexOnly db) rfl hread 96 0 0 (le_refl 0)
  · obtain ⟨n, hn, -⟩ := v4Walk_in_index db hidx 96 0 0 (le_refl 0)
    exact ⟨n, hn⟩

/-- With the index region inside the region, the prefix walk does not depend on the spare
capacity behind the region. -/
theorem v4Walk_spare (db : Reader) (sp : List Byte)
    (hidx : db.nodeCount * 8 ≤ (db.data.length : Int)) :
    v4Walk { db with spare := sp } 96 0 0 = v4Walk db 96 0 0 := by
  apply v4Walk_congr db { db with spare := sp } rfl
  · intro node bit h0 hlt hbit
    have h1 := readNode_in_index { db with spare := sp } node bit h0 hlt hbit hidx
    have h2 := readNode_in_index db node bit h0 hlt hbit hidx
    rw [h1, h2]
  · exact le_refl 0

/-- C20, at the example reader: the search for `1.1.1.1` on the index region alone. -/
theorem reads_stay_in_index_witness :
    search (indexOnly sampleReader) [1, 1, 1, 1] 32 = search sampleReader [1, 1, 1, 1] 32 ∧
    ∃ n, v4Walk sampleReader 96 0 0 = some n :=
  ⟨(reads_stay_in_index sampleReader [1, 1, 1, 1] 32 (by decide) (by decide) (by decide)).2.1,
   (reads_stay_in_index sampleReader [1, 1, 1, 1] 32 (by decide) (by decide)
     (by decide)).2.2.2.2⟩

/-! ## The loader and the declared index region -/

/-- C19, counterexample.  `truncFile` declares one trie node and holds no region byte.
With no spare capacity behind the buffer the load panics: it returns neither a reader nor
an error.  With four bytes of spare capacity the load returns a reader whose `v4offset`
is the value of those four bytes, 9 or 7: the child pointer was read outside the buffer. -/
theorem load_reads_past_region :
    newReaderFromBytes truncUnmarshal truncFile [] [] = none ∧
    (newReaderFromBytes truncUnmarshal truncFile [0, 0, 0, 9] []).map
      (fun r => (r.1.map fun db => db.v4offset, r.2)) = some (some 9, none) ∧
    (newReaderFromBytes truncUnmarshal truncFile [0, 0, 0, 7] []).map
      (fun r => (r.1.map fun db => db.v4offset, r.2)) = some (some 7, none) := by
  decide

/-- C19, amended.  For an input buffer whose metadata block, when the buffer holds it and
it parses, declares an index region that fits in the declared region
(`node_count*8 <= total_size`): `newReaderFromBytes` completes, with a reader or with an
error, and its outcome is the outcome on the same buffer with no spare capacity, where
every access outside the buffer is a panic: no byte outside the buffer is read. -/
theorem load_completes_when_index_fits (unmarshal : List Byte → Except String MetaData)
    (body spare : List Byte) (dm : List (String × String))
    (hfit : ∀ m, 4 + specBE32 body 0 ≤ body.length →
      unmarshal ((body.drop 4).take (specBE32 body 0)) = Except.ok m →
      m.NodeCount * 8 ≤ m.TotalSize) :
    (∃ r, newReaderFromBytes unmarshal body spare dm = some r) ∧
    newReaderFromBytes unmarshal body spare dm =
      (newReaderFromBytes unmarshal body [] dm).map
        fun r => (r.1.map fun db => { db with spare := spare }, r.2) := by
  by_cases hshort : body.length < 4 ∨ (4 ≤ body.length ∧ body.length < 4 + specBE32 body 0)
  · rw [newReaderFromBytes_short unmarshal body spare dm hshort,
      newReaderFromBytes_short unmarshal body [] dm hshort]
    exact ⟨⟨_, rfl⟩, rfl⟩
  · have hL : 4 + specBE32 body 0 ≤ body.length := by omega
    rw [initBytes_eval unmarshal body spare dm hL, initBytes_eval unmarshal body [] dm hL]
    cases hm : unmarshal ((body.drop 4).take (specBE32 body 0)) with
    | error e => exact ⟨⟨_, rfl⟩, rfl⟩
    | ok m =>
      simp only
      by_cases h1 : m.Languages.length = 0 ∨ m.Fields.length = 0
      · rw [if_pos h1, if_pos h1]
        exact ⟨⟨_, rfl⟩, rfl⟩
      · rw [if_neg h1, if_neg h1]
        by_cases h2 : (body.length : Int) ≠ 4 + (specBE32 body 0 : Int) + m.TotalSize
        · rw [if_pos h2, if_pos h2]
          exact ⟨⟨_, rfl⟩, rfl⟩
        · rw [if_neg h2, if_neg h2]
          have hidx : m.NodeCount * 8 ≤ ((body.drop (4 + specBE32 body 0)).length : Int) := by
            have := hfit m hL hm
            rw [List.length_drop]
            omega
          obtain ⟨n, hn, -⟩ := v4Walk_in_index
            { fileSize := body.length, nodeCount := m.NodeCount, v4offset := 0, meta := m,
              data := body.drop (4 + specBE32 body 0), spare := spare, refType := dm,
              cache := [] } hidx 96 0 0 (le_refl 0)
          have hcongr : v4Walk
              { fileSize := body.length, nodeCount := m.NodeCount, v4offset := 0, meta := m,
                data := body.drop (4 + specBE32 body 0), spare := [], refType := dm,
                cache := [] } 96 0 0 = v4Walk
              { fileSize := body.length, nodeCount := m.NodeCount, v4offset := 0, meta := m,
                data := body.drop (4 + specBE32 body 0), spare := spare, refType := dm,
                cache := [] } 96 0 0 :=
            v4Walk_spare
              { fileSize := body.length, nodeCount := m.NodeCount, v4offset := 0, meta := m,
                data := body.drop (4 + specBE32 body 0), spare := spare, refType := dm,
                cache := [] } [] hidx
          rw [hcongr, hn]
          exact ⟨⟨_, rfl⟩, rfl⟩

/-- C19 amended, at the example file with and without spare capacity. -/
theorem load_completes_when_index_fits_witness :
    newReaderFromBytes sampleUnmarshal sampleFile [7, 7, 7] [] =
      (newReaderFromBytes sampleUnmarshal sampleFile [] []).map
        fun r => (r.1.map fun db => { db with spare := [7, 7, 7] }, r.2) :=
  (load_completes_when_index_fits sampleUnmarshal sampleFile [7, 7, 7] []
    (by
      intro m _ hm
      have e : m = sampleMeta := by
        have h2 : sampleUnmarshal ((sampleFile.drop 4).take (specBE32 sampleFile 0))
            = Except.ok sampleMeta := by decide
        rw [h2] at hm
        exact (Except.ok.inj hm).symm
      rw [e]
      decide)).2

/-! ## Bits after a terminal value -/

/-- Two addresses of one length whose bits agree on the positions that a loop visits run
the same loop. -/
theorem searchLoop_agree (db : Reader) (A B : List Byte) (hlen : A.length = B.length) :
    ∀ (m i : Nat) (node : Int), (∀ j, i ≤ j → j < i + m → specBit A j = specBit B j) →
      searchLoop db A m i node = searchLoop db B m i node := by
  intro m
  induction m with
  | zero => intro i node _; rfl
  | succ k ih =>
    intro i node hag
    rw [searchLoop_succ, searchLoop_succ]
    by_cases hlt : node < db.nodeCount
    · rw [if_pos hlt, if_pos hlt]
      by_cases hin : i >>> 3 < A.length
      · have hA := getElem?_eq_some_getD A (i >>> 3) 0 hin
        have hB := getElem?_eq_some_getD B (i >>> 3) 0 (by rw [← hlen]; exact hin)
        rw [hA, hB]
        simp only [Option.some_bind]
        rw [branch_eq_specBit A i _ hA, branch_eq_specBit B i _ hB,
          hag i (le_refl i) (by omega)]
        cases hr : readNode db node ((specBit B i : Nat) : Int) with
        | none => rfl
        | some node2 =>
          simp only [Option.some_bind]
          exact ih (i + 1) node2 (fun j h1 h2 => hag j (by omega) (by omega))
      · have hA : A[i >>> 3]? = none := List.getElem?_eq_none (by omega)
        have hB : B[i >>> 3]? = none := List.getElem?_eq_none (by omega)
        rw [hA, hB]
        rfl
    · rw [if_neg hlt, if_neg hlt]

/-- C21. When the walk of `search` on the address `A` has a value `w` that is not below
`nodeCount` after `k` of the `bitCount` bits, `search` returns what `w` decides, and
every address `B` of the same length that agrees with `A` on the first `k` bits gets the
same result: the bits from `k` on are not read. -/
theorem search_ignores_remaining_bits (db : Reader) (A B : List Byte) (bitCount : Int)
    (k : Nat) (w : Int) (hk : (k : Int) ≤ bitCount) (hlen : A.length = B.length)
    (hwalk : searchLoop db A k 0 (if bitCount = 32 then db.v4offset else 0) = some w)
    (hterm : ¬ w < db.nodeCount)
    (hagree : ∀ i, i < k → specBit A i = specBit B i) :
    search db B bitCount = search db A bitCount ∧
    search db A bitCount =
      some (if w > db.nodeCount then (w, none) else (-1, some Error.ErrDataNotExists)) := by
  have hsplit : bitCount.toNat = k + (bitCount.toNat - k) := by omega
  have hA : searchLoop db A bitCount.toNat 0 (if bitCount = 32 then db.v4offset else 0)
      = some w := by
    rw [hsplit, searchLoop_split, hwalk]
    simp only [Option.some_bind]
    exact searchLoop_terminal db A _ _ w hterm
  have hB : searchLoop db B bitCount.toNat 0 (if bitCount = 32 then db.v4offset else 0)
      = some w := by
    rw [hsplit, searchLoop_split,
      ← searchLoop_agree db A B hlen k 0 _ (fun j _ h2 => hagree j (by omega)), hwalk]
    simp only [Option.some_bind]
    exact searchLoop_terminal db B _ _ w hterm
  constructor
  · rw [search_unfold, search_unfold, hA, hB]
  · rw [search_unfold, hA]
    simp only [Option.some_bind]
    exact (apply_ite some _ _ _).symm

/-- C21, at the example reader: the first bit of `1.1.1.1` leads to the record pointer 3,
and `1.255.0.7` has the same first bit. -/
theorem search_ignores_remaining_bits_witness :
    search sampleReader [1, 255, 0, 7] 32 = search sampleReader [1, 1, 1, 1] 32 :=
  (search_ignores_remaining_bits sampleReader [1, 1, 1, 1] [1, 255, 0, 7] 32 1 3 (by decide)
    (by decide) (by decide) (by decide) (by decide)).1

/-! ## The order of the checks in the reader lookup -/

/-- C22, counterexample.  The string `not-an-ip` does not parse and `XX` is no language of
the example reader: `Find` returns `ErrNoSupportLanguage`, not `ErrIPFormat`. -/
theorem find_malformed_unknown_language :
    sampleParseIP "not-an-ip" = [] ∧
    Find sampleParseIP sampleReader "not-an-ip" "XX"
      = some (none, some Error.ErrNoSupportLanguage) ∧
    Find sampleParseIP sampleReader "not-an-ip" "XX" ≠ some (none, some Error.ErrIPFormat) := by
  decide

/-- C22, amended.  For a string that `net.ParseIP` does not parse: with a supported
language `Find` returns `ErrIPFormat`, for every `ip_version` and every trie, so before
the bitmask or the trie is consulted; the languages table is consulted first, and with a
language that is not supported `Find` returns `ErrNoSupportLanguage`. -/
theorem find_malformed_address (parseIP : String → List Byte) (db : Reader)
    (addr language : String) (h : parseIP addr = []) :
    (∀ off, db.meta.Languages.lookup language = some off →
      Find parseIP db addr language = some (none, some Error.ErrIPFormat)) ∧
    (db.meta.Languages.lookup language = none →
      Find parseIP db addr language = some (none, some Error.ErrNoSupportLanguage)) := by
  have h0 : find0 parseIP db addr = some (none, some Error.ErrIPFormat) := by
    unfold find0
    rw [h]
    rfl
  constructor
  · intro off hl
    unfold Find find1
    rw [hl]
    simp only [h0, Option.some_bind]
  · intro hl
    unfold Find find1
    rw [hl]

/-- C22 amended, at the example reader: a malformed address with the language `CN`. -/
theorem find_malformed_address_witness :
    Find sampleParseIP sampleReader "not-an-ip" "CN" = some (none, some Error.ErrIPFormat) :=
  (find_malformed_address sampleParseIP sampleReader "not-an-ip" "CN" (by decide)).1 0
    (by decide)

/-! ## The record offset of a search result -/

/-- C24. For a node `n` that `search` returns without error, the record offset that
`resolve` computes, `n - nodeCount + nodeCount*8`, is at least `nodeCount*8 + 1`: it is
past the index region and it is not `nodeCount*8`, the first byte behind the index region,
which the excluded value `n = nodeCount` would address.  `find0Resolve` hands this `n`
to `resolve` when it is not negative. -/
theorem search_result_offset (db : Reader) (ip : List Byte) (bitCount n : Int)
    (h : search db ip bitCount = some (n, none)) :
    db.nodeCount * 8 + 1 ≤ n - db.nodeCount + db.nodeCount * 8 ∧
    n - db.nodeCount + db.nodeCount * 8 ≠ db.nodeCount * 8 ∧
    n ≠ db.nodeCount ∧
    (0 ≤ n → find0Resolve db (n, none) = resolve db n) := by
  have hgt : n > db.nodeCount := by
    rw [search_unfold] at h
    obtain ⟨w, -, h2⟩ := Option.bind_eq_some.1 h
    by_cases hw : w > db.nodeCount
    · rw [if_pos hw] at h2
      simp only [Option.some.injEq, Prod.mk.injEq, and_true] at h2
      rw [← h2]
      exact hw
    · rw [if_neg hw] at h2
      simp at h2
  refine ⟨by omega, by omega, by omega, ?_⟩
  intro h0
  unfold find0Resolve
  rw [if_neg]
  simp only [ne_eq, not_true_eq_false, false_or, not_lt]
  exact h0

/-- C24, at the example reader: the pointer 3 has the record offset 17, behind the 16
index bytes and the byte at offset 16. -/
theorem search_result_offset_witness :
    sampleReader.nodeCount * 8 + 1 ≤ 3 - sampleReader.nodeCount + sampleReader.nodeCount * 8 :=
  (search_result_offset sampleReader [1, 1, 1, 1] 32 3 (by decide)).1

/-! ## The lookup path of an address -/

/-- The method `To4` on an IPv4-mapped address gives its last four bytes. -/
theorem To4_mapped (a : List Byte) (ha : a.length = 4) : To4 (v4InV6 ++ a) = some a := by
  have hlen : (v4InV6 ++ a).length = 16 := by
    rw [List.length_append, v4InV6_length, ha]
  have h10 : (v4InV6 ++ a).take 10 = List.replicate 10 0 := by
    rw [List.take_append_of_le_length (by rw [v4InV6_length]; omega)]
    decide
  have g10 : (v4InV6 ++ a)[10]? = some 255 := by
    rw [List.getElem?_append_left (by rw [v4InV6_length]; omega)]
    decide
  have g11 : (v4InV6 ++ a)[11]? = some 255 := by
    rw [List.getElem?_append_left (by rw [v4InV6_length]; omega)]
    decide
  have hdrop : ((v4InV6 ++ a).drop 12).take 4 = a := by
    rw [List.drop_append_of_le_length (by rw [v4InV6_length])]
    have e : v4InV6.drop 12 = [] := by decide
    rw [e, List.nil_append, ← ha, List.take_length]
  unfold To4
  rw [if_neg (by omega), if_pos ⟨hlen, by rw [h10]; decide, g10, g11⟩, hdrop]

/-- On a 16-byte address `To4` gives `nil` exactly when the first 12 bytes are not the
IPv4-mapped prefix. -/
theorem To4_eq_none_iff (ipv : List Byte) (hlen : ipv.length = 16) :
    To4 ipv = none ↔ ipv.take 12 ≠ v4InV6 := by
  constructor
  · intro h hpre
    have e : ipv = v4InV6 ++ ipv.drop 12 := by
      rw [← hpre, List.take_append_drop]
    have h4 : (ipv.drop 12).length = 4 := by
      rw [List.length_drop]
      omega
    rw [e, To4_mapped _ h4] at h
    exact Option.noConfusion h
  · intro h
    unfold To4
    rw [if_neg (by omega)]
    by_cases hc : ipv.length = 16 ∧ isZeros (ipv.take 10) = true ∧ ipv[10]? = some 255
        ∧ ipv[11]? = some 255
    · exfalso
      apply h
      obtain ⟨-, hz, g10, g11⟩ := hc
      have h12 : ipv.take 12 = ipv.take 10 ++ (ipv.drop 10).take 2 := by
        have := List.take_add ipv 10 2
        simpa using this
      have hz2 : ipv.take 10 = List.replicate 10 0 := by
        rw [List.eq_replicate_iff]
        refine ⟨by rw [List.length_take]; omega, ?_⟩
        intro b hb
        unfold isZeros at hz
        rw [List.all_eq_true] at hz
        simpa using hz b hb
      have hd : (ipv.drop 10).take 2 = [255, 255] := by
        apply List.ext_getElem?
        intro i
        by_cases hi : i < 2
        · rw [List.getElem?_take_of_lt hi, List.getElem?_drop]
          interval_cases i
          · simpa using g10
          · simpa using g11
        · have e1 : ((ipv.drop 10).take 2)[i]? = none :=
            List.getElem?_eq_none (by rw [List.length_take]; omega)
          have e2 : ([255, 255] : List Byte)[i]? = none :=
            List.getElem?_eq_none (by simp; omega)
          rw [e1, e2]
      rw [h12, hz2, hd]
      rfl
    · rw [if_neg hc]

/-- C25. `find0` chooses its path from the bytes that `net.ParseIP` returns, not from the
text.  An address whose 16 bytes are the IPv4-mapped prefix and four bytes `a` is checked
against IPv4 support and searched with 32 bits over `a`, from `v4offset`; a 16-byte
address without that prefix is checked against IPv6 support and searched with 128 bits;
and two texts with the same bytes, one in dotted and one in colon notation, get the same
result. -/
theorem find0_path_by_bytes (parseIP : String → List Byte) (db : Reader) (addr : String) :
    (∀ a, a.length = 4 → parseIP addr = v4InV6 ++ a →
      find0 parseIP db addr =
        if ¬ IsIPv4Support db then some (none, some Error.ErrNoSupportIPv4)
        else (search db a 32).bind (find0Resolve db)) ∧
    ((parseIP addr).length = 16 → (parseIP addr).take 12 ≠ v4InV6 →
      find0 parseIP db addr =
        if ¬ IsIPv6Support db then some (none, some Error.ErrNoSupportIPv6)
        else (search db (parseIP addr) 128).bind (find0Resolve db)) ∧
    (∀ addr2, parseIP addr2 = parseIP addr →
      find0 parseIP db addr2 = find0 parseIP db addr) := by
  refine ⟨?_, ?_, ?_⟩
  · intro a ha hp
    unfold find0
    simp only [hp, To4_mapped a ha]
  · intro hlen hpre
    have h4 := (To4_eq_none_iff _ hlen).2 hpre
    have h16 : To16 (parseIP addr) = some (parseIP addr) := by
      unfold To16
      rw [if_neg (by omega), if_pos hlen]
    unfold find0
    simp only [h4, h16]
  · intro addr2 h
    unfold find0
    rw [h]

/-- C25, at the example reader: `1.1.1.1`, whose parsed form is the mapped address, is
searched with 32 bits over its last four bytes. -/
theorem find0_path_by_bytes_witness :
    find0 sampleParseIP sampleReader "1.1.1.1" =
      (search sampleReader [1, 1, 1, 1] 32).bind (find0Resolve sampleReader) := by
  have h := (find0_path_by_bytes sampleParseIP sampleReader "1.1.1.1").1 [1, 1, 1, 1]
    (by decide) (by decide)
  rw [h]
  decide

/-! ## The typed record of the risk handle -/

theorem lookup_filter_ne {β : Type} (k k2 : String) (h : k2 ≠ k) :
    ∀ m : List (String × β), (m.filter fun kv => kv.1 != k).lookup k2 = m.lookup k2 := by
  intro m
  induction m with
  | nil => rfl
  | cons p rest ih =>
    by_cases hp : p.1 = k
    · have hf : (p.1 != k) = false := by simp [hp]
      have hb2 : (k2 == p.1) = false := by rw [hp]; simpa using h
      have e : List.filter (fun kv : String × β => kv.1 != k) (p :: rest)
          = List.filter (fun kv : String × β => kv.1 != k) rest := by
        simp [List.filter_cons, hp]
      rw [e, List.lookup_cons, hb2]
      exact ih
    · have e : List.filter (fun kv : String × β => kv.1 != k) (p :: rest)
          = p :: List.filter (fun kv : String × β => kv.1 != k) rest := by
        simp [List.filter_cons, hp]
      rw [e, List.lookup_cons, List.lookup_cons, ih]

theorem mapLoad_mapStore_ne {β : Type} (m : List (String × β)) (k k2 : String) (v : β)
    (h : k2 ≠ k) : mapLoad (mapStore m k v) k2 = mapLoad m k2 := by
  unfold mapLoad mapStore
  have hb : (k2 == k) = false := by simpa using h
  rw [List.lookup_cons, hb]
  exact lookup_filter_ne k k2 h m

theorem append_CN_inj (a b : String) (h : a ++ "CN" = b ++ "CN") : a = b := by
  have h2 := congrArg String.data h
  simp only [String.data_append] at h2
  exact String.ext (List.append_cancel_right h2)

/-- The three ways a call of `reader.FindMap` ends: a hit, a failed miss, a stored miss. -/
theorem FindMap_cases (parseIP : String → List Byte) (db db2 : Reader)
    (addr language : String) (res : Option FieldMap × Option Error)
    (h : FindMap parseIP db addr language = some (res, db2)) :
    (∃ val, mapLoad db.cache (addr ++ language) = some val ∧ res = (some val, none) ∧
      db2 = db) ∨
    (mapLoad db.cache (addr ++ language) = none ∧ ∃ e, res = (none, some e) ∧ db2 = db) ∨
    (mapLoad db.cache (addr ++ language) = none ∧ ∃ info, res = (some info, none) ∧
      db2 = { db with cache := mapStore db.cache (addr ++ language) info }) := by
  unfold FindMap at h
  cases hc : mapLoad db.cache (addr ++ language) with
  | some val =>
    simp only [hc, Option.some.injEq, Prod.mk.injEq] at h
    exact Or.inl ⟨val, rfl, h.1.symm, h.2.symm⟩
  | none =>
    simp only [hc] at h
    obtain ⟨f, -, h2⟩ := Option.bind_eq_some.1 h
    cases hf2 : f.2 with
    | some err =>
      simp only [hf2, Option.some.injEq, Prod.mk.injEq] at h2
      exact Or.inr (Or.inl ⟨rfl, err, h2.1.symm, h2.2.symm⟩)
    | none =>
      simp only [hf2] at h2
      obtain ⟨info, -, h3⟩ := Option.bind_eq_some.1 h2
      simp only [Option.some.injEq, Prod.mk.injEq] at h3
      exact Or.inr (Or.inr ⟨rfl, info, h3.1.symm, h3.2.symm⟩)

/-- A reader that `newReader` returns has an empty cache. -/
theorem newReader_cache (files : Files) (unmarshal : List Byte → Except String MetaData)
    (name : String) (dm : List (String × String)) (rd : Reader) (e : Option Error)
    (h : newReader files unmarshal name dm = some (some rd, e)) : rd.cache = [] := by
  unfold newReader at h
  cases hs : files.stat name with
  | error msg => simp [hs] at h
  | ok sz =>
    simp only [hs] at h
    split at h
    · simp at h
    · cases hr : files.readFile name with
      | none => simp [hr] at h
      | some p =>
        simp only [hr] at h
        obtain ⟨hdr, len32, metaBytes, m, node, -, -, -, -, -, -, -, -, -, -, hdb⟩ :=
          initBytes_ok_inv unmarshal p.1 p.2 sz dm rd e h
        rw [hdb]

theorem RiskConsistent_of_cache_nil (atoi : List Byte → Option Int) (r : Risk)
    (h : r.cache = []) : RiskConsistent atoi r := by
  intro addr info hl
  rw [h] at hl
  simp [mapLoad] at hl

/-- A call of `Risk.FindInfo` keeps the two caches consistent. -/
theorem RiskConsistent_findInfo (parseIP : String → List Byte)
    (atoi : List Byte → Option Int) (r r2 : Risk) (addr : String)
    (res : Option RiskInfo × Option Error) (hc : RiskConsistent atoi r)
    (h : Risk.FindInfo parseIP atoi r addr = some (res, r2)) : RiskConsistent atoi r2 := by
  unfold Risk.FindInfo at h
  cases hv : validateIP parseIP addr with
  | some err =>
    simp only [hv, Option.some.injEq, Prod.mk.injEq] at h
    rw [← h.2]
    exact hc
  | none =>
    simp only [hv] at h
    cases hl : mapLoad r.cache addr with
    | some info =>
      simp only [hl, Option.some.injEq, Prod.mk.injEq] at h
      rw [← h.2]
      exact hc
    | none =>
      simp only [hl] at h
      obtain ⟨f, hf, h2⟩ := Option.bind_eq_some.1 h
      have hcases := FindMap_cases parseIP r.reader f.2 addr "CN" f.1 hf
      cases hf2 : f.1.2 with
      | some err =>
        simp only [hf2, Option.some.injEq, Prod.mk.injEq] at h2
        rw [← h2.2]
        rcases hcases with ⟨val, -, hres, -⟩ | ⟨-, e, -, hdb⟩ | ⟨-, info, hres, -⟩
        · rw [hres] at hf2
          simp at hf2
        · intro a i hai
          have := hc a i hai
          rw [hdb]
          exact this
        · rw [hres] at hf2
          simp at hf2
      | none =>
        simp only [hf2, Option.some.injEq, Prod.mk.injEq] at h2
        rw [← h2.2]
        intro a i hai
        by_cases ha : a = addr
        · subst ha
          have hi : i = riskInfoOf atoi (f.1.1.getD []) := by
            have := mapLoad_mapStore_self r.cache a (riskInfoOf atoi (f.1.1.getD []))
            simp only at hai
            rw [this] at hai
            exact (Option.some.inj hai).symm
          rcases hcases with ⟨val, hval, hres, hdb⟩ | ⟨-, e, hres, -⟩ | ⟨-, info, hres, hdb⟩
          · refine ⟨val, ?_, ?_⟩
            · show mapLoad f.2.cache (a ++ "CN") = some val
              rw [hdb]
              exact hval
            · rw [hi, hres]
              rfl
          · rw [hres] at hf2
            simp at hf2
          · refine ⟨info, ?_, ?_⟩
            · show mapLoad f.2.cache (a ++ "CN") = some info
              rw [hdb]
              exact mapLoad_mapStore_self _ _ _
            · rw [hi, hres]
              rfl
        · have hai2 : mapLoad r.cache a = some i := by
            simp only at hai
            rw [mapLoad_mapStore_ne r.cache addr a _ ha] at hai
            exact hai
          obtain ⟨m, hm, hi⟩ := hc a i hai2
          refine ⟨m, ?_, hi⟩
          show mapLoad f.2.cache (a ++ "CN") = some m
          rcases hcases with ⟨val, -, -, hdb⟩ | ⟨-, e, -, hdb⟩ | ⟨-, info, -, hdb⟩
          · rw [hdb]; exact hm
          · rw [hdb]; exact hm
          · rw [hdb]
            show mapLoad (mapStore r.reader.cache (addr ++ "CN") info) (a ++ "CN") = some m
            rw [mapLoad_mapStore_ne _ _ _ _ (fun hk => ha (append_CN_inj a addr hk))]
            exact hm

/-- Every handle that a program can hold has consistent caches. -/
theorem RiskConsistent_of_reachable (files : Files)
    (unmarshal : List Byte → Except String MetaData) (parseIP : String → List Byte)
    (atoi : List Byte → Option Int) (r : Risk)
    (h : RiskReachable files unmarshal parseIP atoi r) : RiskConsistent atoi r := by
  induction h with
  | new filename r h =>
    apply RiskConsistent_of_cache_nil
    unfold NewRisk at h
    split at h
    · simp at h
    · obtain ⟨p, -, h2⟩ := Option.bind_eq_some.1 h
      cases hp : p.2 with
      | some err => simp [hp] at h2
      | none =>
        simp only [hp] at h2
        obtain ⟨reader, -, h3⟩ := Option.bind_eq_some.1 h2
        simp only [Option.some.injEq, Prod.mk.injEq, and_true] at h3
        rw [← h3]
  | findInfo r r2 addr res _ h ih => exact RiskConsistent_findInfo parseIP atoi r r2 addr res ih h
  | clearCache r _ _ => exact RiskConsistent_of_cache_nil atoi _ rfl
  | reload r r2 filename e _ h ih =>
    unfold Risk.Reload at h
    obtain ⟨p, -, h2⟩ := Option.bind_eq_some.1 h
    cases hp : p.2 with
    | some err =>
      simp only [hp, Option.some.injEq, Prod.mk.injEq] at h2
      rw [← h2.2]
      exact ih
    | none =>
      simp only [hp] at h2
      obtain ⟨reader, -, h3⟩ := Option.bind_eq_some.1 h2
      simp only [Option.some.injEq, Prod.mk.injEq] at h3
      rw [← h3.2]
      exact RiskConsistent_of_cache_nil atoi _ rfl

/-- The fields of the record that `Risk.FindInfo` decodes from a map. -/
theorem riskInfoOf_fields (atoi : List Byte → Option Int) (m : FieldMap) :
    (riskInfoOf atoi m).Behavior = (mapLoad m "behavior").getD [] ∧
    (riskInfoOf atoi m).CountryCode = (mapLoad m "country_code").getD [] ∧
    (riskInfoOf atoi m).Score = ((mapLoad m "score").bind atoi).getD 0 := by
  unfold riskInfoOf
  cases h1 : mapLoad m "score" with
  | none =>
    cases h2 : mapLoad m "behavior" <;> cases h3 : mapLoad m "country_code" <;> simp
  | some v =>
    cases h0 : atoi v <;> cases h2 : mapLoad m "behavior" <;>
      cases h3 : mapLoad m "country_code" <;> simp [h0]

/-- C23. For a risk handle that a program can hold and an address that parses, when the
map lookup of the reader for the language `CN` succeeds with the map `m`, `Risk.FindInfo`
returns no error and a record with `Behavior = m["behavior"]`,
`CountryCode = m["country_code"]` and `Score` the value that `strconv.Atoi` reads from
`m["score"]`, or 0 when the key is absent or `Atoi` fails: a score that does not parse
leaves that field at its zero value and the other two fields are decoded. -/
theorem risk_findInfo_decodes (files : Files)
    (unmarshal : List Byte → Except String MetaData) (parseIP : String → List Byte)
    (atoi : List Byte → Option Int) (r : Risk) (addr : String) (m : FieldMap)
    (reader2 : Reader) (hreach : RiskReachable files unmarshal parseIP atoi r)
    (hvalid : parseIP addr ≠ [])
    (hmap : FindMap parseIP r.reader addr "CN" = some ((some m, none), reader2)) :
    ∃ info r2, Risk.FindInfo parseIP atoi r addr = some ((some info, none), r2) ∧
      info.Behavior = (mapLoad m "behavior").getD [] ∧
      info.CountryCode = (mapLoad m "country_code").getD [] ∧
      info.Score = ((mapLoad m "score").bind atoi).getD 0 := by
  have hc := RiskConsistent_of_reachable files unmarshal parseIP atoi r hreach
  have hv : validateIP parseIP addr = none := by
    unfold validateIP
    rw [if_neg hvalid]
  obtain ⟨hB, hC, hS⟩ := riskInfoOf_fields atoi m
  unfold Risk.FindInfo
  simp only [hv]
  cases hl : mapLoad r.cache addr with
  | some info =>
    obtain ⟨m2, hm2, hi⟩ := hc addr info hl
    have hmm : m2 = m := by
      rcases FindMap_cases parseIP r.reader reader2 addr "CN" (some m, none) hmap with
        ⟨val, hval, hres, -⟩ | ⟨hnone, -⟩ | ⟨hnone, -⟩
      · rw [hm2] at hval
        simp only [Prod.mk.injEq, Option.some.injEq, and_true] at hres
        rw [hres]
        exact Option.some.inj hval
      · rw [hm2] at hnone
        simp at hnone
      · rw [hm2] at hnone
        simp at hnone
    rw [hmm] at hi
    refine ⟨info, r, rfl, ?_, ?_, ?_⟩
    · rw [hi]; exact hB
    · rw [hi]; exact hC
    · rw [hi]; exact hS
  | none =>
    simp only [hmap, Option.some_bind]
    exact ⟨_, _, rfl, hB, hC, hS⟩

/-- C23, at the risk file: the record of `1.1.1.1` has the score 85; and a score text that
`Atoi` does not read leaves the score 0 next to the decoded behavior. -/
theorem risk_findInfo_decodes_witness :
    (∃ info r2, Risk.FindInfo sampleParseIP sampleAtoi sampleRisk "1.1.1.1"
        = some ((some info, none), r2) ∧ info.Score = 85) ∧
    riskInfoOf sampleAtoi [("behavior", [115]), ("score", [104, 105])]
      = { Score := 0, Behavior := [115], CountryCode := [] } := by
  constructor
  · obtain ⟨info, r2, h, -, -, hS⟩ := risk_findInfo_decodes riskFiles riskUnmarshal
      sampleParseIP sampleAtoi sampleRisk "1.1.1.1" sampleRiskMap sampleRiskReaderCached
      (RiskReachable.new "risk.ipdb" sampleRisk (by decide)) (by decide) (by decide)
    refine ⟨info, r2, h, ?_⟩
    rw [hS]
    decide
  · decide

end Ipdb
